import Mathlib

/-! EtherCAT realtime interface (`include/ecrt.h`): process-data accessors.

A shallow embedding of the macros of `include/ecrt.h`.

* Memory is a list of bytes; a C pointer `DATA` is a buffer together with a
  byte offset into it.  An access outside the buffer yields `none`.
* `uint8_t`, `uint16_t`, `uint32_t` values are naturals reduced modulo `2^w`;
  `int` values are 32-bit two's-complement bit patterns held in a natural;
  the argument `VAL` of a write macro is an arbitrary integer.
* The host byte order is a parameter of every multi-byte access; pointer
  alignment is not modelled.
* The helpers of `<asm/byteorder.h>` and the functions that `ecrt.h` only
  declares are not in the source tree; their definitions below say so.
* Slave lookup, domain registration and the slave state machine are functions
  over explicit state: a failing call returns an error and the caller keeps the
  state it had.
-/

namespace Ecrt

/-! ## Global definitions -/

/-- Macro `ECRT_VER_MAJOR`: EtherCAT real-time interface major version number. -/
def ECRT_VER_MAJOR : Nat := 1

/-- Macro `ECRT_VER_MINOR`: EtherCAT real-time interface minor version number. -/
def ECRT_VER_MINOR : Nat := 4

/-- Macro `ECRT_VERSION(a, b)`: `(((a) << 8) + (b))`, on non-negative arguments in
32-bit `unsigned int` arithmetic (the type `ecrt_version_magic` returns): the
shift and the addition each wrap at `2^32`.  For `int` arguments C defines the
result only while it fits an `int`, and there the two agree. -/
def ECRT_VERSION (a b : Nat) : Nat := ((a <<< 8) % 4294967296 + b) % 4294967296

/-- Macro `ECRT_VERSION_MAGIC`: `ECRT_VERSION(ECRT_VER_MAJOR, ECRT_VER_MINOR)`. -/
def ECRT_VERSION_MAGIC : Nat := ECRT_VERSION ECRT_VER_MAJOR ECRT_VER_MINOR

/-- Largest value of a C `int`. -/
def INT_MAX : Nat := 2147483647

/-! ## Host and memory model -/

/-- Byte order of the host CPU running the accessors. -/
inductive ByteOrder where
  | little
  | big
  deriving DecidableEq, Repr

/-- Process-data memory: a sequence of bytes (each entry below 256). -/
abbrev Buffer := List Nat

/-- The C conversion `(uint8_t) (VAL)`. -/
def cast_uint8 (val : Int) : Nat := (val % 256).toNat

/-- The C conversion `(uint16_t) (VAL)`. -/
def cast_uint16 (val : Int) : Nat := (val % 65536).toNat

/-- The C conversion `(uint32_t) (VAL)`. -/
def cast_uint32 (val : Int) : Nat := (val % 4294967296).toNat

/-- The C conversion `(int8_t)` of an unsigned pattern (two's complement). -/
def cast_int8 (u : Nat) : Int :=
  if u % 256 < 128 then ((u % 256 : Nat) : Int) else ((u % 256 : Nat) : Int) - 256

/-- The C conversion `(int16_t)` of an unsigned pattern (two's complement). -/
def cast_int16 (u : Nat) : Int :=
  if u % 65536 < 32768 then ((u % 65536 : Nat) : Int) else ((u % 65536 : Nat) : Int) - 65536

/-- The C conversion `(int32_t)` of an unsigned pattern (two's complement). -/
def cast_int32 (u : Nat) : Int :=
  if u % 4294967296 < 2147483648 then ((u % 4294967296 : Nat) : Int)
  else ((u % 4294967296 : Nat) : Int) - 4294967296

/-- The load `*((uint8_t *) (DATA))`. -/
def load8 (buf : Buffer) (o : Nat) : Option Nat := buf[o]?

/-- The store `*((uint8_t *) (DATA)) = x`. -/
def store8 (buf : Buffer) (o : Nat) (x : Nat) : Option Buffer :=
  if o < buf.length then some (buf.set o (x % 256)) else none

/-- The native load `*((uint16_t *) (DATA))` on a host of byte order `h`. -/
def load16 (h : ByteOrder) (buf : Buffer) (o : Nat) : Option Nat := do
  let b0 ← buf[o]?
  let b1 ← buf[o + 1]?
  match h with
  | .little => pure (b0 + 256 * b1)
  | .big => pure (256 * b0 + b1)

/-- The native store `*((uint16_t *) (DATA)) = x` on a host of byte order `h`. -/
def store16 (h : ByteOrder) (buf : Buffer) (o : Nat) (x : Nat) : Option Buffer :=
  if o + 2 ≤ buf.length then
    match h with
    | .little => some ((buf.set o (x % 256)).set (o + 1) (x / 256 % 256))
    | .big => some ((buf.set o (x / 256 % 256)).set (o + 1) (x % 256))
  else none

/-- The native load `*((uint32_t *) (DATA))` on a host of byte order `h`. -/
def load32 (h : ByteOrder) (buf : Buffer) (o : Nat) : Option Nat := do
  let b0 ← buf[o]?
  let b1 ← buf[o + 1]?
  let b2 ← buf[o + 2]?
  let b3 ← buf[o + 3]?
  match h with
  | .little => pure (b0 + 256 * b1 + 65536 * b2 + 16777216 * b3)
  | .big => pure (16777216 * b0 + 65536 * b1 + 256 * b2 + b3)

/-- The native store `*((uint32_t *) (DATA)) = x` on a host of byte order `h`. -/
def store32 (h : ByteOrder) (buf : Buffer) (o : Nat) (x : Nat) : Option Buffer :=
  if o + 4 ≤ buf.length then
    match h with
    | .little =>
      some ((((buf.set o (x % 256)).set (o + 1) (x / 256 % 256)).set (o + 2)
        (x / 65536 % 256)).set (o + 3) (x / 16777216 % 256))
    | .big =>
      some ((((buf.set o (x / 16777216 % 256)).set (o + 1) (x / 65536 % 256)).set (o + 2)
        (x / 256 % 256)).set (o + 3) (x % 256))
  else none

/-! ## Byte-order helpers of `<asm/byteorder.h>` -/

/-- Modelled from the spec: the 16-bit byte swap behind the `<asm/byteorder.h>`
conversions, a header that is included by `ecrt.h` but is not in the source
tree.  It exchanges the two bytes of a 16-bit value. -/
def swab16 (x : Nat) : Nat := (x % 256) * 256 + x / 256 % 256

/-- Modelled from the spec: the 32-bit byte swap behind the `<asm/byteorder.h>`
conversions, a header that is included by `ecrt.h` but is not in the source
tree.  It reverses the four bytes of a 32-bit value. -/
def swab32 (x : Nat) : Nat :=
  (x % 256) * 16777216 + (x / 256 % 256) * 65536 + (x / 65536 % 256) * 256
    + x / 16777216 % 256

/-- Modelled from the spec: `le16_to_cpup` of `<asm/byteorder.h>` (not in the
source tree): load a little-endian 16-bit value through a pointer and convert
it to host order; a plain load on a little-endian host, a load followed by a
byte swap on a big-endian host. -/
def le16_to_cpup (h : ByteOrder) (buf : Buffer) (o : Nat) : Option Nat :=
  match h with
  | .little => load16 .little buf o
  | .big => (load16 .big buf o).map swab16

/-- Modelled from the spec: `le32_to_cpup` of `<asm/byteorder.h>` (not in the
source tree): load a little-endian 32-bit value through a pointer and convert
it to host order. -/
def le32_to_cpup (h : ByteOrder) (buf : Buffer) (o : Nat) : Option Nat :=
  match h with
  | .little => load32 .little buf o
  | .big => (load32 .big buf o).map swab32

/-- Modelled from the spec: `cpu_to_le16s` of `<asm/byteorder.h>` (not in the
source tree): convert the 16-bit value at the pointer from host order to
little-endian in place; nothing to do on a little-endian host, an in-place
byte swap (native load, swap, native store) on a big-endian host. -/
def cpu_to_le16s (h : ByteOrder) (buf : Buffer) (o : Nat) : Option Buffer :=
  match h with
  | .little => some buf
  | .big => do
    let x ← load16 .big buf o
    store16 .big buf o (swab16 x)

/-- Modelled from the spec: `cpu_to_le32s` of `<asm/byteorder.h>` (not in the
source tree): convert the 32-bit value at the pointer from host order to
little-endian in place. -/
def cpu_to_le32s (h : ByteOrder) (buf : Buffer) (o : Nat) : Option Buffer :=
  match h with
  | .little => some buf
  | .big => do
    let x ← load32 .big buf o
    store32 .big buf o (swab32 x)

/-! ## Read macros -/

/-- Macro `EC_READ_U8(DATA)`: `((uint8_t) *((uint8_t *) (DATA)))`. -/
def EC_READ_U8 (data : Buffer) (o : Nat) : Option Nat :=
  (load8 data o).map (fun (x : Nat) => cast_uint8 (x : Int))

/-- Macro `EC_READ_S8(DATA)`: `((int8_t) *((uint8_t *) (DATA)))`. -/
def EC_READ_S8 (data : Buffer) (o : Nat) : Option Int :=
  (load8 data o).map cast_int8

/-- Macro `EC_READ_U16(DATA)`: `((uint16_t) le16_to_cpup((void *) (DATA)))`. -/
def EC_READ_U16 (h : ByteOrder) (data : Buffer) (o : Nat) : Option Nat :=
  (le16_to_cpup h data o).map (fun (x : Nat) => cast_uint16 (x : Int))

/-- Macro `EC_READ_S16(DATA)`: `((int16_t) le16_to_cpup((void *) (DATA)))`. -/
def EC_READ_S16 (h : ByteOrder) (data : Buffer) (o : Nat) : Option Int :=
  (le16_to_cpup h data o).map cast_int16

/-- Macro `EC_READ_U32(DATA)`: `((uint32_t) le32_to_cpup((void *) (DATA)))`. -/
def EC_READ_U32 (h : ByteOrder) (data : Buffer) (o : Nat) : Option Nat :=
  (le32_to_cpup h data o).map (fun (x : Nat) => cast_uint32 (x : Int))

/-- Macro `EC_READ_S32(DATA)`: `((int32_t) le32_to_cpup((void *) (DATA)))`. -/
def EC_READ_S32 (h : ByteOrder) (data : Buffer) (o : Nat) : Option Int :=
  (le32_to_cpup h data o).map cast_int32

/-! ## Write macros -/

/-- Macro `EC_WRITE_U8(DATA, VAL)`: `*((uint8_t *)(DATA)) = ((uint8_t) (VAL))`. -/
def EC_WRITE_U8 (data : Buffer) (o : Nat) (val : Int) : Option Buffer :=
  store8 data o (cast_uint8 val)

/-- Macro `EC_WRITE_S8(DATA, VAL)` is `EC_WRITE_U8(DATA, VAL)`. -/
def EC_WRITE_S8 (data : Buffer) (o : Nat) (val : Int) : Option Buffer :=
  EC_WRITE_U8 data o val

/-- Macro `EC_WRITE_U16(DATA, VAL)`:
`*((uint16_t *) (DATA)) = (uint16_t) (VAL); cpu_to_le16s(DATA);`. -/
def EC_WRITE_U16 (h : ByteOrder) (data : Buffer) (o : Nat) (val : Int) : Option Buffer := do
  let d ← store16 h data o (cast_uint16 val)
  cpu_to_le16s h d o

/-- Macro `EC_WRITE_S16(DATA, VAL)` is `EC_WRITE_U16(DATA, VAL)`. -/
def EC_WRITE_S16 (h : ByteOrder) (data : Buffer) (o : Nat) (val : Int) : Option Buffer :=
  EC_WRITE_U16 h data o val

/-- Macro `EC_WRITE_U32(DATA, VAL)`:
`*((uint32_t *) (DATA)) = (uint32_t) (VAL); cpu_to_le32s(DATA);`. -/
def EC_WRITE_U32 (h : ByteOrder) (data : Buffer) (o : Nat) (val : Int) : Option Buffer := do
  let d ← store32 h data o (cast_uint32 val)
  cpu_to_le32s h d o

/-- Macro `EC_WRITE_S32(DATA, VAL)` is `EC_WRITE_U32(DATA, VAL)`. -/
def EC_WRITE_S32 (h : ByteOrder) (data : Buffer) (o : Nat) (val : Int) : Option Buffer :=
  EC_WRITE_U32 h data o val

/-! ## Bitwise read/write macros -/

/-- The `int` expression `1 << (POS)`, as a 32-bit two's-complement pattern
(C defines it for `POS` from 0 to 30). -/
def int_one_shl (pos : Nat) : Nat := (1 <<< pos) % 4294967296

/-- The `int` complement `~m` of a 32-bit two's-complement pattern. -/
def int_not (m : Nat) : Nat := m ^^^ 4294967295

/-- Macro `EC_READ_BIT(DATA, POS)`: `((*((uint8_t *) (DATA)) >> (POS)) & 0x01)`. -/
def EC_READ_BIT (data : Buffer) (o : Nat) (pos : Nat) : Option Nat :=
  (load8 data o).map (fun x => (x >>> pos) &&& 0x01)

/-- Macro `EC_WRITE_BIT(DATA, POS, VAL)`:
`if (VAL) *((uint8_t *) (DATA)) |= (1 << (POS)); else *((uint8_t *) (DATA)) &= ~(1 << (POS));`
The byte is promoted to `int`, combined with the mask, and converted back to
`uint8_t` by the store. -/
def EC_WRITE_BIT (data : Buffer) (o : Nat) (pos : Nat) (val : Int) : Option Buffer := do
  let x ← load8 data o
  if val ≠ 0 then store8 data o (x ||| int_one_shl pos)
  else store8 data o (x &&& int_not (int_one_shl pos))

/-! ## Slave lookup -/

/-- Modelled from the spec: the error taxonomy of the interface (spec section 7);
`ecrt.h` itself only has null results and negative return codes. -/
inductive EcError where
  | AddressResolutionFailure
  | RegistrationConflict
  | MappingLimitExceeded
  | StateTransitionTimeout
  | MailboxFailure
  deriving DecidableEq, Repr

/-- Modelled from the spec: `struct ec_slave` is only forward-declared in
`ecrt.h`; the spec's data model gives a slave the identity
(bus position, vendor id, product code). -/
structure ec_slave_t where
  position : Nat
  vendor_id : Nat
  product_code : Nat
  deriving DecidableEq, Repr

/-- Modelled from the spec: `struct ec_master` is only forward-declared in
`ecrt.h`; the spec's data model gives a master a set of slaves, unique by
position. -/
structure ec_master_t where
  slaves : List ec_slave_t
  deriving Repr

/-- The master invariant of the spec's data model: slaves are unique by position. -/
def ec_master_t.UniquePositions (master : ec_master_t) : Prop :=
  master.slaves.Pairwise (fun a b => a.position ≠ b.position)

/-- Modelled from the spec: `ecrt_master_get_slave_by_pos` is declared in
`ecrt.h` but its body is not in the source tree.  Spec section 4.2: resolution by
position additionally validates vendor id and product code and fails with
AddressResolutionFailure on mismatch, even if a device exists at that position. -/
def ecrt_master_get_slave_by_pos (master : ec_master_t)
    (position vendor_id product_code : Nat) : Except EcError ec_slave_t :=
  match master.slaves.find? (fun s => s.position == position) with
  | none => .error .AddressResolutionFailure
  | some s =>
    if s.vendor_id = vendor_id ∧ s.product_code = product_code then .ok s
    else .error .AddressResolutionFailure

/-! ## Domain registration -/

/-- Direction type for PDO mapping and range registration functions
(`ec_direction_t` of `ecrt.h`). -/
inductive ec_direction_t where
  | EC_DIR_OUTPUT
  | EC_DIR_INPUT
  deriving DecidableEq, Repr

/-- Modelled from the spec: one entry of a slave's PDO mapping table (spec
sections 2 and 4.1): an object-dictionary entry with its declared bit length. -/
structure ec_pdo_entry_t where
  index : Nat
  subindex : Nat
  bit_length : Nat
  deriving DecidableEq, Repr

/-- Modelled from the spec: the configuration-time record of a slave as far as
registration consults it (spec section 3): its identity and its output and
input PDO mapping tables, in insertion order. -/
structure ec_slave_record_t where
  slave : ec_slave_t
  outputs : List ec_pdo_entry_t
  inputs : List ec_pdo_entry_t
  deriving Repr

/-- Modelled from the spec: the part of the master that domain registration
consults (spec section 3): the configured slaves and the activation flag. -/
structure ec_master_state_t where
  slaves : List ec_slave_record_t
  activated : Bool
  deriving Repr

/-- The slave handles of a master state, as `ecrt_master_get_slave_by_pos`
sees them. -/
def ec_master_state_t.handle (master : ec_master_state_t) : ec_master_t :=
  ec_master_t.mk (master.slaves.map (fun r => r.slave))

/-- Modelled from the spec: a PdoRegistration (spec section 3): slave reference,
direction, object index, subindex, bit offset, bit length, byte offset into the
domain image, and the external pointer target (an opaque number here). -/
structure ec_pdo_registration_t where
  slave : ec_slave_t
  direction : ec_direction_t
  index : Nat
  subindex : Nat
  bit_offset : Nat
  bit_length : Nat
  byte_offset : Nat
  data_ptr : Nat
  deriving DecidableEq, Repr

/-- Number of image bytes a registration occupies from its byte offset on: the
bytes that hold the bits `bit_offset .. bit_offset + bit_length`. -/
def ec_pdo_registration_t.byte_length (r : ec_pdo_registration_t) : Nat :=
  (r.bit_offset + r.bit_length + 7) / 8

/-- Modelled from the spec: a Domain (spec section 3): the ordered list of its
registrations and the size in bytes of its contiguous image. -/
structure ec_domain_t where
  registrations : List ec_pdo_registration_t
  image_size : Nat
  deriving DecidableEq, Repr

/-- List entry for domain PDO registrations (`ec_pdo_reg_t` of `ecrt.h`).  The
slave address string is represented by the bus position it denotes. -/
structure ec_pdo_reg_t where
  slave_address : Nat
  vendor_id : Nat
  product_code : Nat
  pdo_entry_index : Nat
  pdo_entry_subindex : Nat
  data_ptr : Nat
  deriving DecidableEq, Repr

/-- Modelled from the spec: `ecrt_master_create_domain` is declared in `ecrt.h`
but its body is not in the source tree.  Spec section 4.6: it fails once the
master is activated; a new domain has no registration and an empty image. -/
def ecrt_master_create_domain (master : ec_master_state_t) : Option ec_domain_t :=
  if master.activated then none else some (ec_domain_t.mk [] 0)

/-- Modelled from the spec: a registration "allocates the next free byte range
in the image" (spec section 4.5): the registration is appended with the current
image size as its byte offset and the image grows by its byte length. -/
def ec_domain_t.allocate (domain : ec_domain_t) (slave : ec_slave_t)
    (direction : ec_direction_t) (index subindex bit_length data_ptr : Nat) : ec_domain_t :=
  let r := ec_pdo_registration_t.mk slave direction index subindex 0 bit_length
    domain.image_size data_ptr
  ec_domain_t.mk (domain.registrations ++ [r]) (domain.image_size + r.byte_length)

/-- Look an object-dictionary entry up in a mapping table. -/
def find_pdo_entry (entries : List ec_pdo_entry_t) (index subindex : Nat) :
    Option ec_pdo_entry_t :=
  entries.find? (fun e => e.index == index && e.subindex == subindex)

/-- Total number of bits mapped by a mapping table. -/
def mapped_bits (entries : List ec_pdo_entry_t) : Nat :=
  (entries.map (fun e => e.bit_length)).sum

/-- Modelled from the spec: `ecrt_domain_register_pdo` is declared in `ecrt.h`
but its body is not in the source tree.  Spec section 4.5: it fails with
RegistrationConflict if called post-activation, with AddressResolutionFailure if
the slave is unknown, with MappingLimitExceeded if the entry is absent from the
slave's mapping; otherwise it allocates the next free byte range of the image
for the entry, with the bit length the mapping declares, and records the
pointer target. -/
def ecrt_domain_register_pdo (master : ec_master_state_t) (domain : ec_domain_t)
    (slave : ec_slave_t) (pdo_entry_index pdo_entry_subindex : Nat) (data_ptr : Nat) :
    Except EcError ec_domain_t :=
  if master.activated then .error .RegistrationConflict
  else
    match master.slaves.find? (fun r => decide (r.slave = slave)) with
    | none => .error .AddressResolutionFailure
    | some r =>
      match find_pdo_entry r.outputs pdo_entry_index pdo_entry_subindex with
      | some e =>
        .ok (domain.allocate slave .EC_DIR_OUTPUT pdo_entry_index pdo_entry_subindex
          e.bit_length data_ptr)
      | none =>
        match find_pdo_entry r.inputs pdo_entry_index pdo_entry_subindex with
        | some e =>
          .ok (domain.allocate slave .EC_DIR_INPUT pdo_entry_index pdo_entry_subindex
            e.bit_length data_ptr)
        | none => .error .MappingLimitExceeded

/-- Modelled from the spec: `ecrt_domain_register_pdo_range` is declared in
`ecrt.h` but its body is not in the source tree.  Spec section 4.5, with the same
failures as `ecrt_domain_register_pdo`: the byte range `offset .. offset + length`
of the slave's process data in the given direction has to lie within what the
slave's mapping for that direction declares; it is then given the next free byte
range of the image, `length` bytes long. -/
def ecrt_domain_register_pdo_range (master : ec_master_state_t) (domain : ec_domain_t)
    (slave : ec_slave_t) (direction : ec_direction_t) (offset length : Nat) (data_ptr : Nat) :
    Except EcError ec_domain_t :=
  if master.activated then .error .RegistrationConflict
  else
    match master.slaves.find? (fun r => decide (r.slave = slave)) with
    | none => .error .AddressResolutionFailure
    | some r =>
      let entries := match direction with
        | .EC_DIR_OUTPUT => r.outputs
        | .EC_DIR_INPUT => r.inputs
      if 8 * (offset + length) ≤ mapped_bits entries + 7 then
        .ok (domain.allocate slave direction 0 0 (8 * length) data_ptr)
      else .error .MappingLimitExceeded

/-- Modelled from the spec: `ecrt_domain_register_pdo_list` is declared in
`ecrt.h` but its body is not in the source tree.  It registers the entries of the
list in order: each slave is resolved by position with its vendor id and product
code validated, then the entry is registered as by `ecrt_domain_register_pdo`;
the first failure is the result. -/
def ecrt_domain_register_pdo_list (master : ec_master_state_t) (domain : ec_domain_t) :
    List ec_pdo_reg_t → Except EcError ec_domain_t
  | [] => .ok domain
  | reg :: pdos =>
    match ecrt_master_get_slave_by_pos master.handle reg.slave_address reg.vendor_id
        reg.product_code with
    | .error e => .error e
    | .ok slave =>
      match ecrt_domain_register_pdo master domain slave reg.pdo_entry_index
          reg.pdo_entry_subindex reg.data_ptr with
      | .error e => .error e
      | .ok domain' => ecrt_domain_register_pdo_list master domain' pdos

/-- One registration call on a domain. -/
inductive ec_registration_call_t where
  | register_pdo (slave : ec_slave_t) (pdo_entry_index pdo_entry_subindex data_ptr : Nat)
  | register_pdo_range (slave : ec_slave_t) (direction : ec_direction_t)
      (offset length data_ptr : Nat)
  | register_pdo_list (pdos : List ec_pdo_reg_t)
  deriving Repr

/-- The effect of one registration call. -/
def ec_registration_call_t.apply (master : ec_master_state_t) (domain : ec_domain_t) :
    ec_registration_call_t → Except EcError ec_domain_t
  | .register_pdo slave index subindex data_ptr =>
    ecrt_domain_register_pdo master domain slave index subindex data_ptr
  | .register_pdo_range slave direction offset length data_ptr =>
    ecrt_domain_register_pdo_range master domain slave direction offset length data_ptr
  | .register_pdo_list pdos => ecrt_domain_register_pdo_list master domain pdos

/-- A sequence of registration calls on one domain, all of them valid: the
first failing call is the result. -/
def register_sequence (master : ec_master_state_t) (domain : ec_domain_t) :
    List ec_registration_call_t → Except EcError ec_domain_t
  | [] => .ok domain
  | call :: calls =>
    match call.apply master domain with
    | .error e => .error e
    | .ok domain' => register_sequence master domain' calls

/-- The domain invariant of the spec's data model (section 3): in registration
order every byte range ends before any later one begins, the byte lengths sum to
the image size, every range lies inside the image, and every byte of the image
belongs to a range. -/
def ec_domain_t.Tiled (domain : ec_domain_t) : Prop :=
  domain.registrations.Pairwise (fun a b => a.byte_offset + a.byte_length ≤ b.byte_offset)
  ∧ (domain.registrations.map ec_pdo_registration_t.byte_length).sum = domain.image_size
  ∧ (∀ r ∈ domain.registrations, r.byte_offset + r.byte_length ≤ domain.image_size)
  ∧ (∀ k, k < domain.image_size →
      ∃ r ∈ domain.registrations, r.byte_offset ≤ k ∧ k < r.byte_offset + r.byte_length)

/-! ## Slave state machine -/

/-- Modelled from the spec: the application-layer states of a slave (spec section
4.4), in ascent order. -/
inductive ec_al_state_t where
  | INIT
  | PREOP
  | SAFEOP
  | OP
  deriving DecidableEq, Repr

/-- Position of a state in the ascent order INIT, PREOP, SAFEOP, OP. -/
def ec_al_state_t.rank : ec_al_state_t → Nat
  | .INIT => 0
  | .PREOP => 1
  | .SAFEOP => 2
  | .OP => 3

/-- The state that follows in the ascent (OP is the top). -/
def ec_al_state_t.next : ec_al_state_t → ec_al_state_t
  | .INIT => .PREOP
  | .PREOP => .SAFEOP
  | .SAFEOP => .OP
  | .OP => .OP

/-- Modelled from the spec: what the mailbox engine reports in one cycle about
the SDO configuration queued for a slave (spec sections 4.3 and 4.4): still in
progress, all writes completed, or a write failed. -/
inductive ec_sdo_status_t where
  | pending
  | completed
  | failed
  deriving DecidableEq, Repr

/-- Modelled from the spec: the state-machine part of a slave record (spec
sections 3 and 4.4): current and requested application-layer state, the number
of polls used by the transition attempt in progress, the ERROR overlay and the
last failure. -/
structure ec_slave_fsm_t where
  current : ec_al_state_t
  requested : ec_al_state_t
  polls : Nat
  error : Bool
  failure : Option EcError
  deriving DecidableEq, Repr

/-- Modelled from the spec: what one receive brings for a slave: the
application-layer status the device reports and the state of its SDO queue. -/
structure ec_cycle_input_t where
  al_status : ec_al_state_t
  sdo : ec_sdo_status_t
  deriving DecidableEq, Repr

/-- Modelled from the spec: the effect of `ecrt_master_activate` (declared in
`ecrt.h`, body not in the source tree) on one slave, spec section 4.6: the
requested state becomes OP; a slave marked ERROR is reconsidered. -/
def ec_slave_activate (s : ec_slave_fsm_t) : ec_slave_fsm_t :=
  ec_slave_fsm_t.mk s.current .OP 0 false none

/-- Modelled from the spec: the effect of `ecrt_master_receive` (declared in
`ecrt.h`, body not in the source tree) on one slave, spec section 4.4, with the
poll budget as a parameter.  A slave under the ERROR overlay or with nothing
requested beyond its current state is left alone.  The ascent from PREOP waits
while the SDO queue is pending and aborts with the ERROR overlay when a write
failed.  Otherwise the transition to the next state is polled: it completes
when the reported status matches the target, and when the budget is exhausted
it fails with StateTransitionTimeout and the slave is demoted to INIT. -/
def ec_slave_receive (budget : Nat) (s : ec_slave_fsm_t) (i : ec_cycle_input_t) :
    ec_slave_fsm_t :=
  if s.error then s
  else if s.requested.rank ≤ s.current.rank then s
  else
    match s.current, i.sdo with
    | .PREOP, .pending => s
    | .PREOP, .failed =>
      ec_slave_fsm_t.mk s.current s.requested 0 true (some .StateTransitionTimeout)
    | _, _ =>
      if i.al_status = s.current.next then
        ec_slave_fsm_t.mk s.current.next s.requested 0 false s.failure
      else if budget ≤ s.polls + 1 then
        ec_slave_fsm_t.mk .INIT .INIT 0 false (some .StateTransitionTimeout)
      else ec_slave_fsm_t.mk s.current s.requested (s.polls + 1) false s.failure

/-- The calls that drive a slave's state machine. -/
inductive ec_master_call_t where
  | activate
  | send
  | receive (i : ec_cycle_input_t)
  deriving DecidableEq, Repr

/-- The effect of one master call on a slave's state machine; `ecrt_master_send`
only puts the pending request on the wire. -/
def ec_slave_step (budget : Nat) (s : ec_slave_fsm_t) : ec_master_call_t → ec_slave_fsm_t
  | .activate => ec_slave_activate s
  | .send => s
  | .receive i => ec_slave_receive budget s i

/-- The slave's state machine after a sequence of master calls. -/
def ec_slave_run (budget : Nat) (s : ec_slave_fsm_t) (calls : List ec_master_call_t) :
    ec_slave_fsm_t :=
  calls.foldl (ec_slave_step budget) s

/-! ## Basic facts about the memory model -/

theorem cast_uint16_lt (val : Int) : cast_uint16 val < 65536 := by
  unfold cast_uint16; omega

theorem cast_uint32_lt (val : Int) : cast_uint32 val < 4294967296 := by
  unfold cast_uint32; omega

theorem set_pair_overwrite (l : List Nat) (o a b c d : Nat) :
    (((l.set o a).set (o + 1) b).set o c).set (o + 1) d = (l.set o c).set (o + 1) d := by
  apply List.ext_getElem?
  intro i
  simp only [List.getElem?_set, List.length_set]
  split_ifs <;> rfl

theorem set_quad_overwrite (l : List Nat) (o a0 a1 a2 a3 c0 c1 c2 c3 : Nat) :
    ((((((((l.set o a0).set (o + 1) a1).set (o + 2) a2).set (o + 3) a3).set o c0).set (o + 1)
      c1).set (o + 2) c2).set (o + 3) c3)
      = ((((l.set o c0).set (o + 1) c1).set (o + 2) c2).set (o + 3) c3) := by
  apply List.ext_getElem?
  intro i
  simp only [List.getElem?_set, List.length_set]
  split_ifs <;> rfl

/-- Bytes of a 16-bit value assembled from two bytes. -/
theorem bytes16 (a b : Nat) (ha : a < 256) (hb : b < 256) :
    (a + 256 * b) % 256 = a ∧ (a + 256 * b) / 256 % 256 = b := by
  omega

/-- Bytes of a 32-bit value assembled from four bytes. -/
theorem bytes32 (a b c d : Nat) (ha : a < 256) (hb : b < 256) (hc : c < 256) (hd : d < 256) :
    (a + 256 * b + 65536 * c + 16777216 * d) % 256 = a
    ∧ (a + 256 * b + 65536 * c + 16777216 * d) / 256 % 256 = b
    ∧ (a + 256 * b + 65536 * c + 16777216 * d) / 65536 % 256 = c
    ∧ (a + 256 * b + 65536 * c + 16777216 * d) / 16777216 % 256 = d := by
  omega

theorem swab16_bytes (a b : Nat) (ha : a < 256) (hb : b < 256) :
    swab16 (256 * a + b) = a + 256 * b := by
  unfold swab16; omega

theorem swab32_bytes (a b c d : Nat) (ha : a < 256) (hb : b < 256) (hc : c < 256)
    (hd : d < 256) :
    swab32 (16777216 * a + 65536 * b + 256 * c + d) = a + 256 * b + 65536 * c + 16777216 * d := by
  unfold swab32; omega

theorem store16_then_le16s (h : ByteOrder) (data : Buffer) (o u : Nat)
    (ho : o + 2 ≤ data.length) :
    (store16 h data o u).bind (fun d => cpu_to_le16s h d o)
      = some ((data.set o (u % 256)).set (o + 1) (u / 256 % 256)) := by
  have h0 : o < data.length := by omega
  have h1 : o + 1 < data.length := by omega
  cases h with
  | little =>
    simp only [store16, cpu_to_le16s, ho, if_true, Option.some_bind]
  | big =>
    have ha : u % 256 < 256 := by omega
    have hb : u / 256 % 256 < 256 := by omega
    have hs := swab16_bytes (u / 256 % 256) (u % 256) hb ha
    have hy := bytes16 (u / 256 % 256) (u % 256) hb ha
    simp [store16, cpu_to_le16s, load16, ho, h0, h1, List.getElem?_set, hs, hy,
      set_pair_overwrite]

theorem store32_then_le32s (h : ByteOrder) (data : Buffer) (o u : Nat)
    (ho : o + 4 ≤ data.length) :
    (store32 h data o u).bind (fun d => cpu_to_le32s h d o)
      = some ((((data.set o (u % 256)).set (o + 1) (u / 256 % 256)).set (o + 2)
          (u / 65536 % 256)).set (o + 3) (u / 16777216 % 256)) := by
  have h0 : o < data.length := by omega
  have h1 : o + 1 < data.length := by omega
  have h2 : o + 2 < data.length := by omega
  have h3 : o + 3 < data.length := by omega
  cases h with
  | little =>
    simp only [store32, cpu_to_le32s, ho, if_true, Option.some_bind]
  | big =>
    have ha : u % 256 < 256 := by omega
    have hb : u / 256 % 256 < 256 := by omega
    have hc : u / 65536 % 256 < 256 := by omega
    have hd : u / 16777216 % 256 < 256 := by omega
    have hs := swab32_bytes (u / 16777216 % 256) (u / 65536 % 256) (u / 256 % 256) (u % 256)
      hd hc hb ha
    have hy := bytes32 (u / 16777216 % 256) (u / 65536 % 256) (u / 256 % 256) (u % 256)
      hd hc hb ha
    simp [store32, cpu_to_le32s, load32, ho, h0, h1, h2, h3, List.getElem?_set, hs, hy,
      set_quad_overwrite]

theorem le16_to_cpup_bytes (h : ByteOrder) (data : Buffer) (o b0 b1 : Nat)
    (g0 : data[o]? = some b0) (g1 : data[o + 1]? = some b1) (hb0 : b0 < 256) (hb1 : b1 < 256) :
    le16_to_cpup h data o = some (b0 + 256 * b1) := by
  cases h with
  | little => simp [le16_to_cpup, load16, g0, g1]
  | big => simp [le16_to_cpup, load16, g0, g1, swab16_bytes b0 b1 hb0 hb1]

theorem le32_to_cpup_bytes (h : ByteOrder) (data : Buffer) (o b0 b1 b2 b3 : Nat)
    (g0 : data[o]? = some b0) (g1 : data[o + 1]? = some b1) (g2 : data[o + 2]? = some b2)
    (g3 : data[o + 3]? = some b3) (hb0 : b0 < 256) (hb1 : b1 < 256) (hb2 : b2 < 256)
    (hb3 : b3 < 256) :
    le32_to_cpup h data o = some (b0 + 256 * b1 + 65536 * b2 + 16777216 * b3) := by
  cases h with
  | little => simp [le32_to_cpup, load32, g0, g1, g2, g3]
  | big =>
    simp [le32_to_cpup, load32, g0, g1, g2, g3, swab32_bytes b0 b1 b2 b3 hb0 hb1 hb2 hb3]

/-- The buffer left by `EC_WRITE_U16`, on either host. -/
theorem EC_WRITE_U16_eq (h : ByteOrder) (data : Buffer) (o : Nat) (val : Int)
    (ho : o + 2 ≤ data.length) :
    EC_WRITE_U16 h data o val
      = some ((data.set o (cast_uint16 val % 256)).set (o + 1) (cast_uint16 val / 256 % 256)) :=
  store16_then_le16s h data o (cast_uint16 val) ho

/-- The buffer left by `EC_WRITE_U32`, on either host. -/
theorem EC_WRITE_U32_eq (h : ByteOrder) (data : Buffer) (o : Nat) (val : Int)
    (ho : o + 4 ≤ data.length) :
    EC_WRITE_U32 h data o val
      = some ((((data.set o (cast_uint32 val % 256)).set (o + 1)
          (cast_uint32 val / 256 % 256)).set (o + 2) (cast_uint32 val / 65536 % 256)).set (o + 3)
          (cast_uint32 val / 16777216 % 256)) :=
  store32_then_le32s h data o (cast_uint32 val) ho

/-- Reading the 16-bit word back from a buffer that holds the little-endian
bytes of `u` at `o` gives `u mod 2^16`, on either host. -/
theorem le16_to_cpup_written (h : ByteOrder) (data : Buffer) (o u : Nat)
    (ho : o + 2 ≤ data.length) :
    le16_to_cpup h ((data.set o (u % 256)).set (o + 1) (u / 256 % 256)) o
      = some (u % 65536) := by
  have e := le16_to_cpup_bytes h ((data.set o (u % 256)).set (o + 1) (u / 256 % 256)) o
    (u % 256) (u / 256 % 256)
    (by simp [List.getElem?_set]; omega) (by simp [List.getElem?_set]; omega)
    (by omega) (by omega)
  rw [e]
  congr 1
  omega

/-- Reading the 32-bit word back from a buffer that holds the little-endian
bytes of `u` at `o` gives `u mod 2^32`, on either host. -/
theorem le32_to_cpup_written (h : ByteOrder) (data : Buffer) (o u : Nat)
    (ho : o + 4 ≤ data.length) :
    le32_to_cpup h ((((data.set o (u % 256)).set (o + 1) (u / 256 % 256)).set (o + 2)
      (u / 65536 % 256)).set (o + 3) (u / 16777216 % 256)) o = some (u % 4294967296) := by
  have e := le32_to_cpup_bytes h ((((data.set o (u % 256)).set (o + 1) (u / 256 % 256)).set
    (o + 2) (u / 65536 % 256)).set (o + 3) (u / 16777216 % 256)) o
    (u % 256) (u / 256 % 256) (u / 65536 % 256) (u / 16777216 % 256)
    (by simp [List.getElem?_set]; omega) (by simp [List.getElem?_set]; omega)
    (by simp [List.getElem?_set]; omega) (by simp [List.getElem?_set]; omega)
    (by omega) (by omega) (by omega) (by omega)
  rw [e]
  congr 1
  omega

/-! ## Claims -/

/-- C1: for every 16-bit unsigned value `v`, every buffer, every in-range
offset and either host byte order, `EC_WRITE_U16(data, v)` succeeds and
`EC_READ_U16` of the resulting buffer at the same offset returns `v`. -/
theorem c1_write_u16_read_u16 (h : ByteOrder) (data : Buffer) (o v : Nat)
    (ho : o + 2 ≤ data.length) (hv : v ≤ 65535) :
    ∃ d, EC_WRITE_U16 h data o (v : Int) = some d ∧ EC_READ_U16 h d o = some v := by
  refine ⟨_, EC_WRITE_U16_eq h data o v ho, ?_⟩
  have hc : cast_uint16 (v : Int) = v := by unfold cast_uint16; omega
  rw [hc, EC_READ_U16, le16_to_cpup_written h data o v ho]
  simp only [Option.map_some']
  congr 1
  unfold cast_uint16
  omega

theorem c1_write_u16_read_u16_witness :
    (1 + 2 ≤ [0, 0, 0, 0].length ∧ 43981 ≤ 65535) ∧
    ∃ d, EC_WRITE_U16 .big [0, 0, 0, 0] 1 ((43981 : Nat) : Int) = some d
      ∧ EC_READ_U16 .big d 1 = some 43981 :=
  ⟨by decide, c1_write_u16_read_u16 .big [0, 0, 0, 0] 1 43981 (by decide) (by decide)⟩

/-- C2: for every 32-bit unsigned value `v`, every buffer, every in-range
offset and either host byte order, `EC_WRITE_U32(data, v)` succeeds and
`EC_READ_U32` of the resulting buffer at the same offset returns `v`. -/
theorem c2_write_u32_read_u32 (h : ByteOrder) (data : Buffer) (o v : Nat)
    (ho : o + 4 ≤ data.length) (hv : v < 2 ^ 32) :
    ∃ d, EC_WRITE_U32 h data o (v : Int) = some d ∧ EC_READ_U32 h d o = some v := by
  refine ⟨_, EC_WRITE_U32_eq h data o v ho, ?_⟩
  have hc : cast_uint32 (v : Int) = v := by unfold cast_uint32; omega
  rw [hc, EC_READ_U32, le32_to_cpup_written h data o v ho]
  simp only [Option.map_some']
  congr 1
  unfold cast_uint32
  omega

theorem c2_write_u32_read_u32_witness :
    (1 + 4 ≤ [9, 9, 9, 9, 9, 9].length ∧ 3735928559 < 2 ^ 32) ∧
    ∃ d, EC_WRITE_U32 .big [9, 9, 9, 9, 9, 9] 1 ((3735928559 : Nat) : Int) = some d
      ∧ EC_READ_U32 .big d 1 = some 3735928559 :=
  ⟨by decide, c2_write_u32_read_u32 .big [9, 9, 9, 9, 9, 9] 1 3735928559 (by decide) (by decide)⟩

/-- C3: for every 16-bit value `v`, `EC_WRITE_U16(data, v)` succeeds on a
little-endian and on a big-endian host with one and the same resulting buffer,
whose two bytes at `data` are `v mod 256` followed by `v div 256`. -/
theorem c3_write_u16_bytes (data : Buffer) (o v : Nat)
    (ho : o + 2 ≤ data.length) (hv : v ≤ 65535) :
    ∃ d, EC_WRITE_U16 .little data o (v : Int) = some d
      ∧ EC_WRITE_U16 .big data o (v : Int) = some d
      ∧ d[o]? = some (v % 256) ∧ d[o + 1]? = some (v / 256) := by
  have hc : cast_uint16 (v : Int) = v := by unfold cast_uint16; omega
  have e : v / 256 % 256 = v / 256 := by omega
  refine ⟨_, EC_WRITE_U16_eq .little data o v ho, EC_WRITE_U16_eq .big data o v ho, ?_, ?_⟩
  · rw [hc]; simp [List.getElem?_set]; omega
  · rw [hc, e]; simp [List.getElem?_set]; omega

theorem c3_write_u16_bytes_witness :
    (0 + 2 ≤ [7, 7, 7].length ∧ 4660 ≤ 65535) ∧
    ∃ d, EC_WRITE_U16 .little [7, 7, 7] 0 ((4660 : Nat) : Int) = some d
      ∧ EC_WRITE_U16 .big [7, 7, 7] 0 ((4660 : Nat) : Int) = some d
      ∧ d[0]? = some (4660 % 256) ∧ d[0 + 1]? = some (4660 / 256) :=
  ⟨by decide, c3_write_u16_bytes [7, 7, 7] 0 4660 (by decide) (by decide)⟩

/-- C4: for every 32-bit value `v`, `EC_WRITE_U32(data, v)` succeeds on a
little-endian and on a big-endian host with one and the same resulting buffer,
whose four bytes at `data` are `v mod 256`, `(v div 2^8) mod 256`,
`(v div 2^16) mod 256`, `v div 2^24`, in this order. -/
theorem c4_write_u32_bytes (data : Buffer) (o v : Nat)
    (ho : o + 4 ≤ data.length) (hv : v < 2 ^ 32) :
    ∃ d, EC_WRITE_U32 .little data o (v : Int) = some d
      ∧ EC_WRITE_U32 .big data o (v : Int) = some d
      ∧ d[o]? = some (v % 256) ∧ d[o + 1]? = some (v / 2 ^ 8 % 256)
      ∧ d[o + 2]? = some (v / 2 ^ 16 % 256) ∧ d[o + 3]? = some (v / 2 ^ 24) := by
  have hc : cast_uint32 (v : Int) = v := by unfold cast_uint32; omega
  have e : v / 16777216 % 256 = v / 16777216 := by omega
  refine ⟨_, EC_WRITE_U32_eq .little data o v ho, EC_WRITE_U32_eq .big data o v ho, ?_, ?_, ?_,
    ?_⟩
  · rw [hc]; simp [List.getElem?_set]; omega
  · rw [hc]; simp [List.getElem?_set]; omega
  · rw [hc]; simp [List.getElem?_set]; omega
  · rw [hc, e]; simp [List.getElem?_set]; omega

theorem c4_write_u32_bytes_witness :
    (1 + 4 ≤ [7, 7, 7, 7, 7].length ∧ 305419896 < 2 ^ 32) ∧
    ∃ d, EC_WRITE_U32 .little [7, 7, 7, 7, 7] 1 ((305419896 : Nat) : Int) = some d
      ∧ EC_WRITE_U32 .big [7, 7, 7, 7, 7] 1 ((305419896 : Nat) : Int) = some d
      ∧ d[1]? = some (305419896 % 256) ∧ d[1 + 1]? = some (305419896 / 2 ^ 8 % 256)
      ∧ d[1 + 2]? = some (305419896 / 2 ^ 16 % 256) ∧ d[1 + 3]? = some (305419896 / 2 ^ 24) :=
  ⟨by decide, c4_write_u32_bytes [7, 7, 7, 7, 7] 1 305419896 (by decide) (by decide)⟩

/-- C5: on either host, `EC_READ_U16` of a field holding the bytes `b0, b1`
returns `b0 + 256 * b1`, and `EC_READ_U32` of a field holding the bytes
`c0, c1, c2, c3` returns `c0 + 2^8 * c1 + 2^16 * c2 + 2^24 * c3`. -/
theorem c5_read_decodes_little_endian (h : ByteOrder)
    (data : Buffer) (o b0 b1 : Nat) (data' : Buffer) (o' c0 c1 c2 c3 : Nat)
    (g0 : data[o]? = some b0) (g1 : data[o + 1]? = some b1)
    (hb0 : b0 < 256) (hb1 : b1 < 256)
    (k0 : data'[o']? = some c0) (k1 : data'[o' + 1]? = some c1)
    (k2 : data'[o' + 2]? = some c2) (k3 : data'[o' + 3]? = some c3)
    (hc0 : c0 < 256) (hc1 : c1 < 256) (hc2 : c2 < 256) (hc3 : c3 < 256) :
    EC_READ_U16 h data o = some (b0 + 256 * b1)
    ∧ EC_READ_U32 h data' o' = some (c0 + 2 ^ 8 * c1 + 2 ^ 16 * c2 + 2 ^ 24 * c3) := by
  constructor
  · rw [EC_READ_U16, le16_to_cpup_bytes h data o b0 b1 g0 g1 hb0 hb1]
    simp only [Option.map_some']
    congr 1
    unfold cast_uint16
    omega
  · rw [EC_READ_U32, le32_to_cpup_bytes h data' o' c0 c1 c2 c3 k0 k1 k2 k3 hc0 hc1 hc2 hc3]
    simp only [Option.map_some']
    congr 1
    unfold cast_uint32
    omega

theorem c5_read_decodes_little_endian_witness :
    EC_READ_U16 .big [0, 52, 18] 1 = some (52 + 256 * 18)
    ∧ EC_READ_U32 .big [120, 86, 52, 18] 0
        = some (120 + 2 ^ 8 * 86 + 2 ^ 16 * 52 + 2 ^ 24 * 18) :=
  c5_read_decodes_little_endian .big [0, 52, 18] 1 52 18 [120, 86, 52, 18] 0 120 86 52 18
    (by decide) (by decide) (by decide) (by decide) (by decide) (by decide) (by decide)
    (by decide) (by decide) (by decide) (by decide) (by decide)

theorem read_bit_eq (x q : Nat) : (x >>> q) &&& 0x01 = (x.testBit q).toNat := by
  rw [Nat.and_one_is_mod, Nat.shiftRight_eq_div_pow, Nat.toNat_testBit]

theorem testBit_int_one_shl (p q : Nat) (hp : p < 32) :
    (int_one_shl p).testBit q = decide (p = q) := by
  have e : (4294967296 : Nat) = 2 ^ 32 := by norm_num
  rw [int_one_shl, e, Nat.testBit_mod_two_pow, Nat.shiftLeft_eq, one_mul, Nat.testBit_two_pow]
  by_cases hpq : p = q
  · subst hpq; simp [hp]
  · simp [hpq]

theorem testBit_int_not (m q : Nat) :
    (int_not m).testBit q = (m.testBit q ^^ decide (q < 32)) := by
  have e : (4294967295 : Nat) = 2 ^ 32 - 1 := by norm_num
  rw [int_not, Nat.testBit_xor, e, Nat.testBit_two_pow_sub_one]

/-- Bits of the byte stored by the set branch of `EC_WRITE_BIT`. -/
theorem testBit_set_branch (x p q : Nat) (hp : p < 32) :
    ((x ||| int_one_shl p) % 256).testBit q = (decide (q < 8) && (x.testBit q || decide (p = q))) := by
  have e : (256 : Nat) = 2 ^ 8 := by norm_num
  rw [e, Nat.testBit_mod_two_pow, Nat.testBit_or, testBit_int_one_shl p q hp]

/-- Bits of the byte stored by the clear branch of `EC_WRITE_BIT`. -/
theorem testBit_clear_branch (x p q : Nat) (hp : p < 32) :
    ((x &&& int_not (int_one_shl p)) % 256).testBit q
      = (decide (q < 8) && (x.testBit q && !decide (p = q))) := by
  have e : (256 : Nat) = 2 ^ 8 := by norm_num
  rw [e, Nat.testBit_mod_two_pow, Nat.testBit_and, testBit_int_not, testBit_int_one_shl p q hp]
  by_cases hq : q < 8
  · have : q < 32 := by omega
    simp [hq, this]
  · simp [hq]

/-- The buffer left by `EC_WRITE_BIT`. -/
theorem EC_WRITE_BIT_eq (data : Buffer) (o p x : Nat) (val : Int) (hx : data[o]? = some x) :
    EC_WRITE_BIT data o p val
      = some (data.set o (if val ≠ 0 then (x ||| int_one_shl p) % 256
          else (x &&& int_not (int_one_shl p)) % 256)) := by
  have ho : o < data.length := by
    rcases List.getElem?_eq_some_iff.mp hx with ⟨h, _⟩
    exact h
  by_cases hv : val = 0 <;> simp [EC_WRITE_BIT, load8, store8, hx, ho, hv]

/-- C6: for every byte of a buffer, every bit position `p` from 0 to 7 and
every value `val`, `EC_WRITE_BIT(data, p, val)` succeeds, `EC_READ_BIT` at every
other position `q` from 0 to 7 returns the same bit after the write as before,
and no other byte of the buffer changes. -/
theorem c6_write_bit_frame (data : Buffer) (o p : Nat) (val : Int)
    (ho : o < data.length) (hp : p ≤ 7) :
    ∃ d, EC_WRITE_BIT data o p val = some d
      ∧ (∀ q, q ≤ 7 → q ≠ p → EC_READ_BIT d o q = EC_READ_BIT data o q)
      ∧ (∀ i, i ≠ o → d[i]? = data[i]?)
      ∧ d.length = data.length := by
  have hx : data[o]? = some (data.get ⟨o, ho⟩) := by simp
  generalize data.get ⟨o, ho⟩ = x at hx
  refine ⟨_, EC_WRITE_BIT_eq data o p x val hx, ?_, ?_, ?_⟩
  · intro q hq hqp
    have hne : ¬ p = q := fun e => hqp e.symm
    have hq8 : q < 8 := by omega
    simp only [EC_READ_BIT, load8, hx, List.getElem?_set, ho, if_true, Option.map_some',
      read_bit_eq]
    congr 2
    split
    · rw [testBit_set_branch x p q (by omega)]; simp [hne, hq8]
    · rw [testBit_clear_branch x p q (by omega)]; simp [hne, hq8]
  · intro i hi
    simp [List.getElem?_set, Ne.symm hi]
  · simp

theorem c6_write_bit_frame_witness :
    (1 < [0, 165, 255].length ∧ 2 ≤ 7) ∧
    ∃ d, EC_WRITE_BIT [0, 165, 255] 1 2 0 = some d
      ∧ (∀ q, q ≤ 7 → q ≠ 2 → EC_READ_BIT d 1 q = EC_READ_BIT [0, 165, 255] 1 q)
      ∧ (∀ i, i ≠ 1 → d[i]? = ([0, 165, 255] : Buffer)[i]?)
      ∧ d.length = ([0, 165, 255] : Buffer).length :=
  ⟨by decide, c6_write_bit_frame [0, 165, 255] 1 2 0 (by decide) (by decide)⟩

/-- C7: for every byte of a buffer, every bit position `p` from 0 to 7 and
every integer `val`, `EC_WRITE_BIT(data, p, val)` succeeds and `EC_READ_BIT(data, p)`
on the result returns 1 when `val` is non-zero and 0 when `val` is zero. -/
theorem c7_write_bit_read_bit (data : Buffer) (o p : Nat) (val : Int)
    (ho : o < data.length) (hp : p ≤ 7) :
    ∃ d, EC_WRITE_BIT data o p val = some d
      ∧ EC_READ_BIT d o p = some (if val ≠ 0 then 1 else 0) := by
  have hx : data[o]? = some (data.get ⟨o, ho⟩) := by simp
  generalize data.get ⟨o, ho⟩ = x at hx
  refine ⟨_, EC_WRITE_BIT_eq data o p x val hx, ?_⟩
  have hp8 : p < 8 := by omega
  simp only [EC_READ_BIT, load8, List.getElem?_set, ho, if_true, Option.map_some', read_bit_eq]
  congr 1
  split
  · rw [testBit_set_branch x p p (by omega)]; simp [hp8]
  · rw [testBit_clear_branch x p p (by omega)]; simp [hp8]

theorem c7_write_bit_read_bit_witness :
    (0 < [165].length ∧ 3 ≤ 7) ∧
    ∃ d, EC_WRITE_BIT [165] 0 3 2 = some d
      ∧ EC_READ_BIT d 0 3 = some (if (2 : Int) ≠ 0 then 1 else 0) :=
  ⟨by decide, c7_write_bit_read_bit [165] 0 3 2 (by decide) (by decide)⟩

/-- A version word that fits a C `int` is not affected by the wrap. -/
theorem ECRT_VERSION_fits (a b : Nat) (hfit : a * 256 + b ≤ INT_MAX) :
    ECRT_VERSION a b = a * 256 + b := by
  unfold INT_MAX at hfit
  have e : a <<< 8 = a * 256 := by rw [Nat.shiftLeft_eq]
  unfold ECRT_VERSION
  rw [e]
  omega

/-- C8: for all non-negative `a` and `b` whose version word fits a C `int`,
`ECRT_VERSION(a, b)` is `a * 256 + b` (the shift applies to `a` alone), and
`ECRT_VERSION_MAGIC`, built from `ECRT_VER_MAJOR = 1` and `ECRT_VER_MINOR = 4`,
is 260 (0x0104). -/
theorem c8_version_word (a b : Nat) (hfit : a * 256 + b ≤ INT_MAX) :
    ECRT_VERSION a b = a * 256 + b
    ∧ ECRT_VER_MAJOR = 1 ∧ ECRT_VER_MINOR = 4
    ∧ ECRT_VERSION_MAGIC = 260 ∧ ECRT_VERSION_MAGIC = 0x0104 := by
  refine ⟨ECRT_VERSION_fits a b hfit, rfl, rfl, ?_, ?_⟩
  · decide
  · decide

theorem c8_version_word_witness :
    3 * 256 + 17 ≤ INT_MAX ∧
    (ECRT_VERSION 3 17 = 3 * 256 + 17
      ∧ ECRT_VER_MAJOR = 1 ∧ ECRT_VER_MINOR = 4
      ∧ ECRT_VERSION_MAGIC = 260 ∧ ECRT_VERSION_MAGIC = 0x0104) :=
  ⟨by decide, c8_version_word 3 17 (by decide)⟩

/-- C9: the signed accessors round-trip every representable value on either
host: `EC_READ_S8` after `EC_WRITE_S8(data, v)` returns `v` for `v` in
`[-128, 127]`, `EC_READ_S16` after `EC_WRITE_S16(data, v)` returns `v` for `v` in
`[-32768, 32767]`, and `EC_READ_S32` after `EC_WRITE_S32(data, v)` returns `v` for
`v` in `[-2^31, 2^31 - 1]`; each write succeeds at an in-range offset. -/
theorem c9_signed_roundtrip (h : ByteOrder)
    (d8 : Buffer) (o8 : Nat) (v8 : Int) (d16 : Buffer) (o16 : Nat) (v16 : Int)
    (d32 : Buffer) (o32 : Nat) (v32 : Int)
    (ho8 : o8 + 1 ≤ d8.length) (hl8 : -128 ≤ v8) (hu8 : v8 ≤ 127)
    (ho16 : o16 + 2 ≤ d16.length) (hl16 : -32768 ≤ v16) (hu16 : v16 ≤ 32767)
    (ho32 : o32 + 4 ≤ d32.length) (hl32 : -2 ^ 31 ≤ v32) (hu32 : v32 ≤ 2 ^ 31 - 1) :
    (∃ d, EC_WRITE_S8 d8 o8 v8 = some d ∧ EC_READ_S8 d o8 = some v8)
    ∧ (∃ d, EC_WRITE_S16 h d16 o16 v16 = some d ∧ EC_READ_S16 h d o16 = some v16)
    ∧ (∃ d, EC_WRITE_S32 h d32 o32 v32 = some d ∧ EC_READ_S32 h d o32 = some v32) := by
  refine ⟨?_, ?_, ?_⟩
  · have h0 : o8 < d8.length := by omega
    refine ⟨d8.set o8 (cast_uint8 v8 % 256), by simp [EC_WRITE_S8, EC_WRITE_U8, store8, h0], ?_⟩
    simp only [EC_READ_S8, load8, List.getElem?_set, h0, if_true, Option.map_some']
    congr 1
    unfold cast_int8 cast_uint8
    split <;> omega
  · refine ⟨_, EC_WRITE_U16_eq h d16 o16 v16 ho16, ?_⟩
    rw [EC_READ_S16, le16_to_cpup_written h d16 o16 _ ho16]
    simp only [Option.map_some']
    congr 1
    unfold cast_int16 cast_uint16
    split <;> omega
  · refine ⟨_, EC_WRITE_U32_eq h d32 o32 v32 ho32, ?_⟩
    rw [EC_READ_S32, le32_to_cpup_written h d32 o32 _ ho32]
    simp only [Option.map_some']
    congr 1
    unfold cast_int32 cast_uint32
    split <;> omega

theorem c9_signed_roundtrip_witness :
    (∃ d, EC_WRITE_S8 [0, 0] 1 (-128) = some d ∧ EC_READ_S8 d 1 = some (-128))
    ∧ (∃ d, EC_WRITE_S16 .big [0, 0, 0] 1 (-2) = some d ∧ EC_READ_S16 .big d 1 = some (-2))
    ∧ (∃ d, EC_WRITE_S32 .big [0, 0, 0, 0] 0 (-2147483648) = some d
        ∧ EC_READ_S32 .big d 0 = some (-2147483648)) :=
  c9_signed_roundtrip .big [0, 0] 1 (-128) [0, 0, 0] 1 (-2) [0, 0, 0, 0] 0 (-2147483648)
    (by decide) (by decide) (by decide) (by decide) (by decide) (by decide)
    (by decide) (by decide) (by decide)

/-- With positions unique, looking a position up finds exactly the slave that
sits there. -/
theorem find_position_of_mem (l : List ec_slave_t) (s : ec_slave_t) (N : Nat)
    (huniq : l.Pairwise (fun a b => a.position ≠ b.position))
    (hs : s ∈ l) (hN : s.position = N) :
    l.find? (fun t => t.position == N) = some s := by
  induction l with
  | nil => simp at hs
  | cons a l ih =>
    rw [List.pairwise_cons] at huniq
    rcases List.mem_cons.mp hs with rfl | hmem
    · simp [hN]
    · have hne : a.position ≠ N := by
        rw [← hN]
        exact huniq.1 s hmem
      simp [List.find?_cons, hne, ih huniq.2 hmem]

/-- C10: when the master (slaves unique by position) holds a slave `s` at bus
position `N`, `ecrt_master_get_slave_by_pos(master, N, vendor, product)` returns
`s` if its vendor id and product code both equal the given ones and fails with
AddressResolutionFailure otherwise; and whatever slave the lookup returns is a
slave of the master at position `N` with the given vendor id and product code. -/
theorem c10_get_slave_by_pos (master : ec_master_t) (N vendor product : Nat)
    (s : ec_slave_t) (huniq : master.UniquePositions)
    (hs : s ∈ master.slaves) (hN : s.position = N) :
    ecrt_master_get_slave_by_pos master N vendor product
      = (if s.vendor_id = vendor ∧ s.product_code = product then Except.ok s
         else Except.error EcError.AddressResolutionFailure)
    ∧ (∀ t, ecrt_master_get_slave_by_pos master N vendor product = Except.ok t →
        t ∈ master.slaves ∧ t.position = N ∧ t.vendor_id = vendor ∧ t.product_code = product) := by
  have hf := find_position_of_mem master.slaves s N huniq hs hN
  have e : ecrt_master_get_slave_by_pos master N vendor product
      = (if s.vendor_id = vendor ∧ s.product_code = product then Except.ok s
         else Except.error EcError.AddressResolutionFailure) := by
    simp only [ecrt_master_get_slave_by_pos, hf]
  refine ⟨e, ?_⟩
  intro t ht
  rw [e] at ht
  split at ht
  · rename_i hm
    cases ht
    exact ⟨hs, hN, hm.1, hm.2⟩
  · cases ht

theorem c10_get_slave_by_pos_witness :
    ((ec_master_t.mk [ec_slave_t.mk 0 2 5, ec_slave_t.mk 1 2 7]).UniquePositions
      ∧ ec_slave_t.mk 1 2 7 ∈ (ec_master_t.mk [ec_slave_t.mk 0 2 5, ec_slave_t.mk 1 2 7]).slaves
      ∧ (ec_slave_t.mk 1 2 7).position = 1) ∧
    (ecrt_master_get_slave_by_pos
        (ec_master_t.mk [ec_slave_t.mk 0 2 5, ec_slave_t.mk 1 2 7]) 1 2 5
      = (if (ec_slave_t.mk 1 2 7).vendor_id = 2 ∧ (ec_slave_t.mk 1 2 7).product_code = 5
         then Except.ok (ec_slave_t.mk 1 2 7)
         else Except.error EcError.AddressResolutionFailure)
    ∧ (∀ t, ecrt_master_get_slave_by_pos
        (ec_master_t.mk [ec_slave_t.mk 0 2 5, ec_slave_t.mk 1 2 7]) 1 2 5 = Except.ok t →
        t ∈ (ec_master_t.mk [ec_slave_t.mk 0 2 5, ec_slave_t.mk 1 2 7]).slaves
          ∧ t.position = 1 ∧ t.vendor_id = 2 ∧ t.product_code = 5)) :=
  ⟨⟨by simp [ec_master_t.UniquePositions], by simp, rfl⟩,
    c10_get_slave_by_pos (ec_master_t.mk [ec_slave_t.mk 0 2 5, ec_slave_t.mk 1 2 7]) 1 2 5
      (ec_slave_t.mk 1 2 7) (by simp [ec_master_t.UniquePositions]) (by simp) rfl⟩

/-- A fresh domain is tiled. -/
theorem tiled_empty : (ec_domain_t.mk [] 0).Tiled := by
  refine ⟨List.Pairwise.nil, rfl, ?_, ?_⟩
  · intro r hr; simp at hr
  · intro k hk; simp at hk

/-- Allocating the next free byte range keeps a domain tiled. -/
theorem tiled_allocate (domain : ec_domain_t) (slave : ec_slave_t)
    (direction : ec_direction_t) (index subindex bit_length data_ptr : Nat)
    (ht : domain.Tiled) :
    (domain.allocate slave direction index subindex bit_length data_ptr).Tiled := by
  obtain ⟨hpw, hsum, hin, hcov⟩ := ht
  simp only [ec_domain_t.allocate, ec_domain_t.Tiled]
  refine ⟨?_, ?_, ?_, ?_⟩
  · rw [List.pairwise_append]
    refine ⟨hpw, List.pairwise_singleton _ _, ?_⟩
    intro a ha b hb
    rw [List.mem_singleton] at hb
    subst hb
    exact hin a ha
  · rw [List.map_append, List.sum_append, hsum]
    simp
  · intro r hr
    rw [List.mem_append, List.mem_singleton] at hr
    rcases hr with hr | hr
    · have := hin r hr
      omega
    · subst hr
      exact Nat.le_refl _
  · intro k hk
    by_cases hlt : k < domain.image_size
    · obtain ⟨r, hr, h1, h2⟩ := hcov k hlt
      exact ⟨r, List.mem_append_left _ hr, h1, h2⟩
    · refine ⟨_, List.mem_append_right _ (List.mem_singleton_self _), ?_, ?_⟩
      · simp only; omega
      · simp only; omega

theorem tiled_register_pdo (master : ec_master_state_t) (domain d : ec_domain_t)
    (slave : ec_slave_t) (index subindex data_ptr : Nat) (ht : domain.Tiled)
    (h : ecrt_domain_register_pdo master domain slave index subindex data_ptr = .ok d) :
    d.Tiled := by
  unfold ecrt_domain_register_pdo at h
  split at h
  · cases h
  · split at h
    · cases h
    · split at h
      · cases h
        exact tiled_allocate _ _ _ _ _ _ _ ht
      · split at h
        · cases h
          exact tiled_allocate _ _ _ _ _ _ _ ht
        · cases h

theorem tiled_register_pdo_range (master : ec_master_state_t) (domain d : ec_domain_t)
    (slave : ec_slave_t) (direction : ec_direction_t) (offset length data_ptr : Nat)
    (ht : domain.Tiled)
    (h : ecrt_domain_register_pdo_range master domain slave direction offset length data_ptr
      = .ok d) :
    d.Tiled := by
  unfold ecrt_domain_register_pdo_range at h
  split at h
  · cases h
  · split at h
    · cases h
    · simp only at h
      split at h
      · cases h
        exact tiled_allocate _ _ _ _ _ _ _ ht
      · cases h

theorem tiled_register_pdo_list (master : ec_master_state_t) (pdos : List ec_pdo_reg_t) :
    ∀ (domain d : ec_domain_t), domain.Tiled →
      ecrt_domain_register_pdo_list master domain pdos = .ok d → d.Tiled := by
  induction pdos with
  | nil =>
    intro domain d ht h
    simp only [ecrt_domain_register_pdo_list] at h
    cases h
    exact ht
  | cons reg pdos ih =>
    intro domain d ht h
    simp only [ecrt_domain_register_pdo_list] at h
    split at h
    · cases h
    · split at h
      · cases h
      · rename_i slave _ domain' hreg'
        exact ih domain' d (tiled_register_pdo master domain domain' _ _ _ _ ht hreg') h

theorem tiled_register_sequence (master : ec_master_state_t)
    (calls : List ec_registration_call_t) :
    ∀ (domain d : ec_domain_t), domain.Tiled →
      register_sequence master domain calls = .ok d → d.Tiled := by
  induction calls with
  | nil =>
    intro domain d ht h
    simp only [register_sequence] at h
    cases h
    exact ht
  | cons call calls ih =>
    intro domain d ht h
    simp only [register_sequence] at h
    split at h
    · cases h
    · rename_i domain' hcall
      refine ih domain' d ?_ h
      cases call with
      | register_pdo slave index subindex data_ptr =>
        exact tiled_register_pdo master domain domain' slave index subindex data_ptr ht hcall
      | register_pdo_range slave direction offset length data_ptr =>
        exact tiled_register_pdo_range master domain domain' slave direction offset length
          data_ptr ht hcall
      | register_pdo_list pdos =>
        exact tiled_register_pdo_list master pdos domain domain' ht hcall

/-- C11: for any sequence of valid registration calls (`ecrt_domain_register_pdo`,
`ecrt_domain_register_pdo_range`, `ecrt_domain_register_pdo_list`) made on a newly
created domain, the byte ranges of the registrations are pairwise disjoint (in
registration order each ends before any later one begins), their byte lengths
sum exactly to the image size, and every byte of the image belongs to one of
them. -/
theorem c11_registrations_tile_image (master : ec_master_state_t)
    (calls : List ec_registration_call_t) (d0 d : ec_domain_t)
    (hcreate : ecrt_master_create_domain master = some d0)
    (hreg : register_sequence master d0 calls = .ok d) :
    d.registrations.Pairwise (fun a b => a.byte_offset + a.byte_length ≤ b.byte_offset)
    ∧ (∀ (i j : Nat) (a b : ec_pdo_registration_t), i ≠ j → d.registrations[i]? = some a → d.registrations[j]? = some b →
        a.byte_offset + a.byte_length ≤ b.byte_offset
          ∨ b.byte_offset + b.byte_length ≤ a.byte_offset)
    ∧ (d.registrations.map ec_pdo_registration_t.byte_length).sum = d.image_size
    ∧ (∀ k, k < d.image_size →
        ∃ r ∈ d.registrations, r.byte_offset ≤ k ∧ k < r.byte_offset + r.byte_length) := by
  have h0 : d0 = ec_domain_t.mk [] 0 := by
    unfold ecrt_master_create_domain at hcreate
    split at hcreate
    · cases hcreate
    · cases hcreate; rfl
  subst h0
  obtain ⟨hpw, hsum, _, hcov⟩ := tiled_register_sequence master calls _ d tiled_empty hreg
  refine ⟨hpw, ?_, hsum, hcov⟩
  intro i j a b hij ha hb
  obtain ⟨hi, rfl⟩ := List.getElem?_eq_some_iff.mp ha
  obtain ⟨hj, rfl⟩ := List.getElem?_eq_some_iff.mp hb
  rcases Nat.lt_or_gt_of_ne hij with hlt | hgt
  · exact Or.inl (List.pairwise_iff_getElem.mp hpw i j hi hj hlt)
  · exact Or.inr (List.pairwise_iff_getElem.mp hpw j i hj hi hgt)

theorem c11_registrations_tile_image_witness :
    (ec_domain_t.mk
        [ec_pdo_registration_t.mk (ec_slave_t.mk 0 2 11) .EC_DIR_OUTPUT 28672 1 0 16 0 100,
          ec_pdo_registration_t.mk (ec_slave_t.mk 1 2 12) .EC_DIR_INPUT 24576 1 0 8 2 200,
          ec_pdo_registration_t.mk (ec_slave_t.mk 0 2 11) .EC_DIR_OUTPUT 0 0 0 16 3 300]
        5).registrations.Pairwise (fun a b => a.byte_offset + a.byte_length ≤ b.byte_offset)
    ∧ (∀ (i j : Nat) (a b : ec_pdo_registration_t), i ≠ j →
        (ec_domain_t.mk
          [ec_pdo_registration_t.mk (ec_slave_t.mk 0 2 11) .EC_DIR_OUTPUT 28672 1 0 16 0 100,
            ec_pdo_registration_t.mk (ec_slave_t.mk 1 2 12) .EC_DIR_INPUT 24576 1 0 8 2 200,
            ec_pdo_registration_t.mk (ec_slave_t.mk 0 2 11) .EC_DIR_OUTPUT 0 0 0 16 3 300]
          5).registrations[i]? = some a →
        (ec_domain_t.mk
          [ec_pdo_registration_t.mk (ec_slave_t.mk 0 2 11) .EC_DIR_OUTPUT 28672 1 0 16 0 100,
            ec_pdo_registration_t.mk (ec_slave_t.mk 1 2 12) .EC_DIR_INPUT 24576 1 0 8 2 200,
            ec_pdo_registration_t.mk (ec_slave_t.mk 0 2 11) .EC_DIR_OUTPUT 0 0 0 16 3 300]
          5).registrations[j]? = some b →
        a.byte_offset + a.byte_length ≤ b.byte_offset
          ∨ b.byte_offset + b.byte_length ≤ a.byte_offset)
    ∧ ((ec_domain_t.mk
        [ec_pdo_registration_t.mk (ec_slave_t.mk 0 2 11) .EC_DIR_OUTPUT 28672 1 0 16 0 100,
          ec_pdo_registration_t.mk (ec_slave_t.mk 1 2 12) .EC_DIR_INPUT 24576 1 0 8 2 200,
          ec_pdo_registration_t.mk (ec_slave_t.mk 0 2 11) .EC_DIR_OUTPUT 0 0 0 16 3 300]
        5).registrations.map ec_pdo_registration_t.byte_length).sum = 5
    ∧ (∀ k, k < 5 →
        ∃ r ∈ (ec_domain_t.mk
          [ec_pdo_registration_t.mk (ec_slave_t.mk 0 2 11) .EC_DIR_OUTPUT 28672 1 0 16 0 100,
            ec_pdo_registration_t.mk (ec_slave_t.mk 1 2 12) .EC_DIR_INPUT 24576 1 0 8 2 200,
            ec_pdo_registration_t.mk (ec_slave_t.mk 0 2 11) .EC_DIR_OUTPUT 0 0 0 16 3 300]
          5).registrations, r.byte_offset ≤ k ∧ k < r.byte_offset + r.byte_length) :=
  c11_registrations_tile_image
    (ec_master_state_t.mk
      [ec_slave_record_t.mk (ec_slave_t.mk 0 2 11) [ec_pdo_entry_t.mk 28672 1 16] [],
        ec_slave_record_t.mk (ec_slave_t.mk 1 2 12) [] [ec_pdo_entry_t.mk 24576 1 8]]
      false)
    [ec_registration_call_t.register_pdo (ec_slave_t.mk 0 2 11) 28672 1 100,
      ec_registration_call_t.register_pdo_list [ec_pdo_reg_t.mk 1 2 12 24576 1 200],
      ec_registration_call_t.register_pdo_range (ec_slave_t.mk 0 2 11) .EC_DIR_OUTPUT 0 2 300]
    (ec_domain_t.mk [] 0)
    (ec_domain_t.mk
      [ec_pdo_registration_t.mk (ec_slave_t.mk 0 2 11) .EC_DIR_OUTPUT 28672 1 0 16 0 100,
        ec_pdo_registration_t.mk (ec_slave_t.mk 1 2 12) .EC_DIR_INPUT 24576 1 0 8 2 200,
        ec_pdo_registration_t.mk (ec_slave_t.mk 0 2 11) .EC_DIR_OUTPUT 0 0 0 16 3 300]
      5)
    rfl rfl

/-- One master call raises the rank of the current state by at most one. -/
theorem rank_step_le (budget : Nat) (s : ec_slave_fsm_t) (c : ec_master_call_t) :
    (ec_slave_step budget s c).current.rank ≤ s.current.rank + 1 := by
  cases c with
  | activate => simp [ec_slave_step, ec_slave_activate]
  | send => simp [ec_slave_step]
  | receive i =>
    simp only [ec_slave_step, ec_slave_receive]
    split
    · omega
    · split
      · omega
      · split
        · omega
        · simp
        · split
          · cases hc : s.current <;> simp [ec_al_state_t.next, ec_al_state_t.rank]
          · split
            · simp [ec_al_state_t.rank]
            · simp

/-- One master call leaves the current state, moves it to the next state of the
ascent, or demotes it to INIT. -/
theorem step_no_skip (budget : Nat) (s : ec_slave_fsm_t) (c : ec_master_call_t) :
    (ec_slave_step budget s c).current = s.current
    ∨ (ec_slave_step budget s c).current = s.current.next
    ∨ (ec_slave_step budget s c).current = .INIT := by
  cases c with
  | activate => simp [ec_slave_step, ec_slave_activate]
  | send => simp [ec_slave_step]
  | receive i =>
    simp only [ec_slave_step, ec_slave_receive]
    split
    · simp
    · split
      · simp
      · split
        · simp
        · simp
        · split
          · simp
          · split
            · simp
            · simp

/-- A sequence of naturals that starts at or below `m` and rises by at most one
per step takes the value `m` before it first exceeds `m`. -/
theorem crosses_level (f : Nat → Nat) (m : Nat) (hstep : ∀ k, f (k + 1) ≤ f k + 1)
    (h0 : f 0 ≤ m) : ∀ n, m < f n → ∃ j, j < n ∧ f j = m := by
  intro n
  induction n with
  | zero => intro h; omega
  | succ n ih =>
    intro h
    have hs := hstep n
    by_cases hn : m < f n
    · obtain ⟨j, hj, hfj⟩ := ih hn
      exact ⟨j, by omega, hfj⟩
    · exact ⟨n, by omega, by omega⟩

/-- Running one more call of the sequence is one step from the shorter run. -/
theorem run_take_succ (budget : Nat) (s : ec_slave_fsm_t) (calls : List ec_master_call_t)
    (k : Nat) :
    ec_slave_run budget s (calls.take (k + 1))
      = match calls[k]? with
        | some c => ec_slave_step budget (ec_slave_run budget s (calls.take k)) c
        | none => ec_slave_run budget s (calls.take k) := by
  rw [List.take_succ]
  cases calls[k]? with
  | none => simp
  | some c => simp [ec_slave_run, List.foldl_append]

theorem rank_injective (a b : ec_al_state_t) (h : a.rank = b.rank) : a = b := by
  cases a <;> cases b <;> simp [ec_al_state_t.rank] at h <;> rfl

/-- A transition attempt whose status never matches times out when its poll
budget is used up. -/
theorem timeout_after_polls (budget : Nat) :
    ∀ (inputs : List ec_cycle_input_t) (s : ec_slave_fsm_t),
      s.error = false → s.current.rank < s.requested.rank →
      s.polls + inputs.length = budget → 0 < inputs.length →
      (∀ i ∈ inputs, i.al_status ≠ s.current.next
        ∧ (s.current = .PREOP → i.sdo = .completed)) →
      ec_slave_run budget s (inputs.map ec_master_call_t.receive)
        = ec_slave_fsm_t.mk .INIT .INIT 0 false (some .StateTransitionTimeout) := by
  intro inputs
  induction inputs with
  | nil => intro s _ _ _ hpos; simp at hpos
  | cons i rest ih =>
    intro s herr hreq hlen _ hall
    have hi := hall i (List.mem_cons_self _ _)
    have hnot : ¬ s.requested.rank ≤ s.current.rank := by omega
    have hmatch : ec_slave_receive budget s i
        = if budget ≤ s.polls + 1 then
            ec_slave_fsm_t.mk .INIT .INIT 0 false (some .StateTransitionTimeout)
          else ec_slave_fsm_t.mk s.current s.requested (s.polls + 1) false s.failure := by
      simp only [ec_slave_receive, herr, hnot, if_false, Bool.false_eq_true]
      split
      · rename_i hc hs
        have := hi.2 hc
        rw [this] at hs
        cases hs
      · rename_i hc hs
        have := hi.2 hc
        rw [this] at hs
        cases hs
      · simp [hi.1]
    simp only [List.map_cons, ec_slave_run, List.foldl_cons, ec_slave_step, hmatch]
    simp only [List.length_cons] at hlen
    cases rest with
    | nil =>
      have hb : budget ≤ s.polls + 1 := by simp at hlen; omega
      simp [hb]
    | cons i' rest' =>
      have hb : ¬ budget ≤ s.polls + 1 := by simp at hlen; omega
      simp only [hb, if_false]
      have := ih (ec_slave_fsm_t.mk s.current s.requested (s.polls + 1) false s.failure)
        rfl hreq (by simp at hlen ⊢; omega) (by simp)
        (fun j hj => hall j (List.mem_cons_of_mem _ hj))
      simpa [ec_slave_run] using this

/-- C12: in any sequence of activate, send and receive calls, a slave that
starts in INIT and is found in OP has been in PREOP and, later, in SAFEOP
before; no call moves the current state anywhere but to itself, to the next
state of the ascent, or to INIT; and a transition attempt with a poll budget
`budget`, `s.polls` of it used, whose reported status does not match in any of
the remaining `budget - s.polls` polls, ends with StateTransitionTimeout and the
slave demoted to INIT. -/
theorem c12_ascent_order_and_timeout (budget : Nat) (s0 : ec_slave_fsm_t)
    (calls : List ec_master_call_t) (s : ec_slave_fsm_t) (inputs : List ec_cycle_input_t)
    (hinit : s0.current = .INIT)
    (hop : (ec_slave_run budget s0 calls).current = .OP)
    (herr : s.error = false) (hreq : s.current.rank < s.requested.rank)
    (hpolls : s.polls + inputs.length = budget) (hpos : 0 < inputs.length)
    (hnever : ∀ i ∈ inputs, i.al_status ≠ s.current.next
      ∧ (s.current = .PREOP → i.sdo = .completed)) :
    (∃ i j, i < j ∧ j < calls.length
      ∧ (ec_slave_run budget s0 (calls.take i)).current = .PREOP
      ∧ (ec_slave_run budget s0 (calls.take j)).current = .SAFEOP)
    ∧ (∀ (t : ec_slave_fsm_t) (c : ec_master_call_t),
        (ec_slave_step budget t c).current = t.current
        ∨ (ec_slave_step budget t c).current = t.current.next
        ∨ (ec_slave_step budget t c).current = .INIT)
    ∧ ((ec_slave_run budget s (inputs.map ec_master_call_t.receive)).current = .INIT
      ∧ (ec_slave_run budget s (inputs.map ec_master_call_t.receive)).requested = .INIT
      ∧ (ec_slave_run budget s (inputs.map ec_master_call_t.receive)).failure
          = some .StateTransitionTimeout) := by
  refine ⟨?_, step_no_skip budget, ?_⟩
  · have hstep : ∀ k, (ec_slave_run budget s0 (calls.take (k + 1))).current.rank
        ≤ (ec_slave_run budget s0 (calls.take k)).current.rank + 1 := by
      intro k
      rw [run_take_succ]
      cases calls[k]? with
      | none => simp
      | some c => exact rank_step_le budget _ c
    have hstart : (ec_slave_run budget s0 (calls.take 0)).current.rank = 0 := by
      simp [ec_slave_run, hinit, ec_al_state_t.rank]
    have hend : (ec_slave_run budget s0 (calls.take calls.length)).current.rank = 3 := by
      rw [List.take_length, hop]
      rfl
    obtain ⟨j, hj, hfj⟩ := crosses_level
      (fun k => (ec_slave_run budget s0 (calls.take k)).current.rank) 2 hstep
      (by simp only [hstart]; omega) calls.length (by simp only [hend]; omega)
    obtain ⟨i, hi, hfi⟩ := crosses_level
      (fun k => (ec_slave_run budget s0 (calls.take k)).current.rank) 1 hstep
      (by simp only [hstart]; omega) j (by simp only [hfj]; omega)
    exact ⟨i, j, hi, hj, rank_injective _ _ hfi, rank_injective _ _ hfj⟩
  · rw [timeout_after_polls budget inputs s herr hreq hpolls hpos hnever]
    exact ⟨rfl, rfl, rfl⟩

theorem c12_ascent_order_and_timeout_witness :
    (∃ i j, i < j
      ∧ j < [ec_master_call_t.activate, .send,
          .receive (ec_cycle_input_t.mk .PREOP .pending), .send,
          .receive (ec_cycle_input_t.mk .SAFEOP .completed),
          .receive (ec_cycle_input_t.mk .OP .completed)].length
      ∧ (ec_slave_run 3 (ec_slave_fsm_t.mk .INIT .INIT 0 false none)
          ([ec_master_call_t.activate, .send,
            .receive (ec_cycle_input_t.mk .PREOP .pending), .send,
            .receive (ec_cycle_input_t.mk .SAFEOP .completed),
            .receive (ec_cycle_input_t.mk .OP .completed)].take i)).current = .PREOP
      ∧ (ec_slave_run 3 (ec_slave_fsm_t.mk .INIT .INIT 0 false none)
          ([ec_master_call_t.activate, .send,
            .receive (ec_cycle_input_t.mk .PREOP .pending), .send,
            .receive (ec_cycle_input_t.mk .SAFEOP .completed),
            .receive (ec_cycle_input_t.mk .OP .completed)].take j)).current = .SAFEOP)
    ∧ (∀ (t : ec_slave_fsm_t) (c : ec_master_call_t),
        (ec_slave_step 3 t c).current = t.current
        ∨ (ec_slave_step 3 t c).current = t.current.next
        ∨ (ec_slave_step 3 t c).current = .INIT)
    ∧ ((ec_slave_run 3 (ec_slave_fsm_t.mk .SAFEOP .OP 0 false none)
          ([ec_cycle_input_t.mk .SAFEOP .completed, ec_cycle_input_t.mk .SAFEOP .completed,
            ec_cycle_input_t.mk .INIT .completed].map ec_master_call_t.receive)).current = .INIT
      ∧ (ec_slave_run 3 (ec_slave_fsm_t.mk .SAFEOP .OP 0 false none)
          ([ec_cycle_input_t.mk .SAFEOP .completed, ec_cycle_input_t.mk .SAFEOP .completed,
            ec_cycle_input_t.mk .INIT .completed].map ec_master_call_t.receive)).requested
          = .INIT
      ∧ (ec_slave_run 3 (ec_slave_fsm_t.mk .SAFEOP .OP 0 false none)
          ([ec_cycle_input_t.mk .SAFEOP .completed, ec_cycle_input_t.mk .SAFEOP .completed,
            ec_cycle_input_t.mk .INIT .completed].map ec_master_call_t.receive)).failure
          = some .StateTransitionTimeout) :=
  c12_ascent_order_and_timeout 3 (ec_slave_fsm_t.mk .INIT .INIT 0 false none)
    [ec_master_call_t.activate, .send,
      .receive (ec_cycle_input_t.mk .PREOP .pending), .send,
      .receive (ec_cycle_input_t.mk .SAFEOP .completed),
      .receive (ec_cycle_input_t.mk .OP .completed)]
    (ec_slave_fsm_t.mk .SAFEOP .OP 0 false none)
    [ec_cycle_input_t.mk .SAFEOP .completed, ec_cycle_input_t.mk .SAFEOP .completed,
      ec_cycle_input_t.mk .INIT .completed]
    rfl (by decide) rfl (by decide) (by decide) (by decide) (by decide)

/-- A cell overwritten with its own content leaves the buffer as it is. -/
theorem set_same (l : List Nat) (o x : Nat) (hx : l[o]? = some x) : l.set o x = l := by
  apply List.ext_getElem?
  intro i
  simp only [List.getElem?_set]
  split_ifs with h1 h2
  · subst h1; exact hx.symm
  · subst h1
    have := (List.getElem?_eq_some_iff.mp hx).1
    omega
  · rfl

/-- C13: on either host and for every value, `EC_WRITE_U16` at an in-range byte
offset `o` succeeds, keeps the buffer length and leaves every byte outside
`[o, o + 2)` as it was; `EC_WRITE_U32` does the same with `[o, o + 4)`. -/
theorem c13_write_frame (h : ByteOrder) (d16 : Buffer) (o16 : Nat) (v16 : Int)
    (d32 : Buffer) (o32 : Nat) (v32 : Int)
    (ho16 : o16 + 2 ≤ d16.length) (ho32 : o32 + 4 ≤ d32.length) :
    (∃ d, EC_WRITE_U16 h d16 o16 v16 = some d ∧ d.length = d16.length
      ∧ ∀ i, (i < o16 ∨ o16 + 2 ≤ i) → d[i]? = d16[i]?)
    ∧ (∃ d, EC_WRITE_U32 h d32 o32 v32 = some d ∧ d.length = d32.length
      ∧ ∀ i, (i < o32 ∨ o32 + 4 ≤ i) → d[i]? = d32[i]?) := by
  refine ⟨⟨_, EC_WRITE_U16_eq h d16 o16 v16 ho16, by simp, ?_⟩,
    ⟨_, EC_WRITE_U32_eq h d32 o32 v32 ho32, by simp, ?_⟩⟩
  · intro i hi
    simp only [List.getElem?_set]
    split_ifs <;> first | rfl | omega
  · intro i hi
    simp only [List.getElem?_set]
    split_ifs <;> first | rfl | omega

theorem c13_write_frame_witness :
    (1 + 2 ≤ [1, 2, 3, 4].length ∧ 1 + 4 ≤ [1, 2, 3, 4, 5, 6].length) ∧
    ((∃ d, EC_WRITE_U16 .big [1, 2, 3, 4] 1 43981 = some d ∧ d.length = [1, 2, 3, 4].length
      ∧ ∀ i, (i < 1 ∨ 1 + 2 ≤ i) → d[i]? = ([1, 2, 3, 4] : Buffer)[i]?)
    ∧ (∃ d, EC_WRITE_U32 .big [1, 2, 3, 4, 5, 6] 1 3735928559 = some d
      ∧ d.length = [1, 2, 3, 4, 5, 6].length
      ∧ ∀ i, (i < 1 ∨ 1 + 4 ≤ i) → d[i]? = ([1, 2, 3, 4, 5, 6] : Buffer)[i]?)) :=
  ⟨by decide, c13_write_frame .big [1, 2, 3, 4] 1 43981 [1, 2, 3, 4, 5, 6] 1 3735928559
    (by decide) (by decide)⟩

/-- C14: for every integer `val` the unsigned write accessors succeed at an
in-range offset and store the truncated value: `EC_WRITE_U8` stores
`val mod 2^8`, `EC_WRITE_U16` the little-endian bytes of `val mod 2^16` and
`EC_WRITE_U32` those of `val mod 2^32`; on either host the matching unsigned
read returns `val mod 2^w`, and the buffer length is unchanged. -/
theorem c14_write_truncates (h : ByteOrder) (val : Int)
    (d8 : Buffer) (o8 : Nat) (d16 : Buffer) (o16 : Nat) (d32 : Buffer) (o32 : Nat)
    (ho8 : o8 + 1 ≤ d8.length) (ho16 : o16 + 2 ≤ d16.length) (ho32 : o32 + 4 ≤ d32.length) :
    (∃ d, EC_WRITE_U8 d8 o8 val = some d ∧ d.length = d8.length
      ∧ d[o8]? = some (val % 256).toNat
      ∧ EC_READ_U8 d o8 = some (val % 256).toNat)
    ∧ (∃ d, EC_WRITE_U16 h d16 o16 val = some d ∧ d.length = d16.length
      ∧ d[o16]? = some ((val % 65536).toNat % 256)
      ∧ d[o16 + 1]? = some ((val % 65536).toNat / 256)
      ∧ EC_READ_U16 h d o16 = some (val % 65536).toNat)
    ∧ (∃ d, EC_WRITE_U32 h d32 o32 val = some d ∧ d.length = d32.length
      ∧ d[o32]? = some ((val % 4294967296).toNat % 256)
      ∧ d[o32 + 1]? = some ((val % 4294967296).toNat / 256 % 256)
      ∧ d[o32 + 2]? = some ((val % 4294967296).toNat / 65536 % 256)
      ∧ d[o32 + 3]? = some ((val % 4294967296).toNat / 16777216)
      ∧ EC_READ_U32 h d o32 = some (val % 4294967296).toNat) := by
  refine ⟨?_, ?_, ?_⟩
  · have h0 : o8 < d8.length := by omega
    have e : (val % 256).toNat % 256 = (val % 256).toNat := by omega
    refine ⟨d8.set o8 ((val % 256).toNat), ?_, by simp, ?_, ?_⟩
    · simp [EC_WRITE_U8, store8, cast_uint8, h0, e]
    · simp [List.getElem?_set, h0]
    · simp only [EC_READ_U8, load8, List.getElem?_set, h0, if_true, Option.map_some']
      congr 1
  · have hu := cast_uint16_lt val
    have hc : cast_uint16 val = (val % 65536).toNat := rfl
    have e : (val % 65536).toNat / 256 % 256 = (val % 65536).toNat / 256 := by omega
    refine ⟨_, EC_WRITE_U16_eq h d16 o16 val ho16, by simp, ?_, ?_, ?_⟩
    · rw [hc]; simp [List.getElem?_set]; omega
    · rw [hc, e]; simp [List.getElem?_set]; omega
    · rw [EC_READ_U16, le16_to_cpup_written h d16 o16 _ ho16, hc]
      simp only [Option.map_some']
      congr 1
      unfold cast_uint16
      omega
  · have hu := cast_uint32_lt val
    have hc : cast_uint32 val = (val % 4294967296).toNat := rfl
    have e : (val % 4294967296).toNat / 16777216 % 256 = (val % 4294967296).toNat / 16777216 := by
      omega
    refine ⟨_, EC_WRITE_U32_eq h d32 o32 val ho32, by simp, ?_, ?_, ?_, ?_, ?_⟩
    · rw [hc]; simp [List.getElem?_set]; omega
    · rw [hc]; simp [List.getElem?_set]; omega
    · rw [hc]; simp [List.getElem?_set]; omega
    · rw [hc, e]; simp [List.getElem?_set]; omega
    · rw [EC_READ_U32, le32_to_cpup_written h d32 o32 _ ho32, hc]
      simp only [Option.map_some']
      congr 1
      unfold cast_uint32
      omega

theorem c14_write_truncates_witness :
    (0 + 1 ≤ [0].length ∧ 0 + 2 ≤ [0, 0].length ∧ 0 + 4 ≤ [0, 0, 0, 0].length) ∧
    ((∃ d, EC_WRITE_U8 [0] 0 74565 = some d ∧ d.length = [0].length
      ∧ d[0]? = some ((74565 : Int) % 256).toNat
      ∧ EC_READ_U8 d 0 = some ((74565 : Int) % 256).toNat)
    ∧ (∃ d, EC_WRITE_U16 .big [0, 0] 0 74565 = some d ∧ d.length = [0, 0].length
      ∧ d[0]? = some (((74565 : Int) % 65536).toNat % 256)
      ∧ d[0 + 1]? = some (((74565 : Int) % 65536).toNat / 256)
      ∧ EC_READ_U16 .big d 0 = some ((74565 : Int) % 65536).toNat)
    ∧ (∃ d, EC_WRITE_U32 .big [0, 0, 0, 0] 0 74565 = some d ∧ d.length = [0, 0, 0, 0].length
      ∧ d[0]? = some (((74565 : Int) % 4294967296).toNat % 256)
      ∧ d[0 + 1]? = some (((74565 : Int) % 4294967296).toNat / 256 % 256)
      ∧ d[0 + 2]? = some (((74565 : Int) % 4294967296).toNat / 65536 % 256)
      ∧ d[0 + 3]? = some (((74565 : Int) % 4294967296).toNat / 16777216)
      ∧ EC_READ_U32 .big d 0 = some ((74565 : Int) % 4294967296).toNat)) :=
  ⟨by decide, c14_write_truncates .big 74565 [0] 0 [0, 0] 0 [0, 0, 0, 0] 0
    (by decide) (by decide) (by decide)⟩

/-- Decoding a version word that fits a C `int` and whose minor number is below
256. -/
theorem ECRT_VERSION_decode (a b : Nat) (hb : b < 256) (hfit : a * 256 + b ≤ INT_MAX) :
    ECRT_VERSION a b >>> 8 = a ∧ ECRT_VERSION a b &&& 0xFF = b := by
  have e : (0xFF : Nat) = 2 ^ 8 - 1 := by norm_num
  rw [e, Nat.and_pow_two_sub_one_eq_mod, Nat.shiftRight_eq_div_pow, ECRT_VERSION_fits a b hfit]
  constructor <;> omega

/-- C15, as stated, fails: with both minor numbers below 256 but no bound on the
major number, `ECRT_VERSION(16777216, 0)` wraps to the word of
`ECRT_VERSION(0, 0)`, so equal words do not give equal majors and `word >> 8`
is not the major. -/
theorem c15_version_wraps_counterexample :
    ECRT_VERSION 16777216 0 = ECRT_VERSION 0 0
    ∧ ECRT_VERSION 16777216 0 >>> 8 ≠ 16777216
    ∧ ¬ (∀ a a' b b' : Nat, b < 256 → b' < 256 →
          ECRT_VERSION a b = ECRT_VERSION a' b' → a = a' ∧ b = b') := by
  refine ⟨by decide, by decide, ?_⟩
  intro hall
  have h := hall 16777216 0 0 0 (by decide) (by decide) (by decide)
  exact absurd h.1 (by decide)

/-- C15, amended: for version words that fit a C `int` and minor numbers below
256 the version word determines the pair: equal words have equal majors and
equal minors, the major is `word >> 8` and the minor is `word & 0xFF`; without
the bound on the minor the encoding is not injective, `ECRT_VERSION(1, 256)` and
`ECRT_VERSION(2, 0)` being the same word. -/
theorem c15_version_injective (a a' b b' : Nat) (hb : b < 256) (hb' : b' < 256)
    (hfit : a * 256 + b ≤ INT_MAX) (hfit' : a' * 256 + b' ≤ INT_MAX)
    (hw : ECRT_VERSION a b = ECRT_VERSION a' b') :
    (a = a' ∧ b = b')
    ∧ ECRT_VERSION a b >>> 8 = a ∧ ECRT_VERSION a b &&& 0xFF = b
    ∧ ECRT_VERSION 1 256 = ECRT_VERSION 2 0 := by
  have d1 := ECRT_VERSION_decode a b hb hfit
  have d2 := ECRT_VERSION_decode a' b' hb' hfit'
  refine ⟨⟨?_, ?_⟩, d1.1, d1.2, by decide⟩
  · rw [← d1.1, ← d2.1, hw]
  · rw [← d1.2, ← d2.2, hw]

theorem c15_version_injective_witness :
    (4 < 256 ∧ 4 < 256 ∧ 1 * 256 + 4 ≤ INT_MAX ∧ 1 * 256 + 4 ≤ INT_MAX
      ∧ ECRT_VERSION 1 4 = ECRT_VERSION 1 4) ∧
    ((1 = 1 ∧ 4 = 4)
    ∧ ECRT_VERSION 1 4 >>> 8 = 1 ∧ ECRT_VERSION 1 4 &&& 0xFF = 4
    ∧ ECRT_VERSION 1 256 = ECRT_VERSION 2 0) :=
  ⟨by decide, c15_version_injective 1 1 4 4 (by decide) (by decide) (by decide) (by decide)
    rfl⟩

/-- Bits of the byte that `EC_WRITE_BIT` stores, for either branch. -/
theorem testBit_written (x p q : Nat) (val : Int) (hp : p < 32) :
    (if val ≠ 0 then (x ||| int_one_shl p) % 256
      else (x &&& int_not (int_one_shl p)) % 256).testBit q
      = (decide (q < 8) &&
          (if val ≠ 0 then (x.testBit q || decide (p = q))
            else (x.testBit q && !decide (p = q)))) := by
  split
  · exact testBit_set_branch x p q hp
  · exact testBit_clear_branch x p q hp

/-- Writing a bit into a buffer whose byte at `o` was just replaced. -/
theorem EC_WRITE_BIT_set (data : Buffer) (o p y : Nat) (val : Int) (ho : o < data.length) :
    EC_WRITE_BIT (data.set o y) o p val
      = some (data.set o (if val ≠ 0 then (y ||| int_one_shl p) % 256
          else (y &&& int_not (int_one_shl p)) % 256)) := by
  rw [EC_WRITE_BIT_eq (data.set o y) o p y val (by simp [List.getElem?_set, ho]), List.set_set]

/-- C16: for every byte of a buffer, positions `p`, `q` from 0 to 7 and values
`v`, `w`: writing `(p, v)` twice gives the same buffer as writing it once;
writing `(p, v)` then `(p, w)` gives the same buffer as writing `(p, w)` alone;
and for `p ≠ q` writing `(p, v)` then `(q, w)` gives the same buffer as writing
`(q, w)` then `(p, v)`.  Every write involved succeeds. -/
theorem c16_write_bit_algebra (data : Buffer) (o p q : Nat) (v w : Int)
    (ho : o < data.length) (hp : p ≤ 7) (hq : q ≤ 7) :
    ∃ d1 d2 d3, EC_WRITE_BIT data o p v = some d1
      ∧ EC_WRITE_BIT data o p w = some d2
      ∧ EC_WRITE_BIT data o q w = some d3
      ∧ EC_WRITE_BIT d1 o p v = some d1
      ∧ EC_WRITE_BIT d1 o p w = some d2
      ∧ (p ≠ q → ∃ d4, EC_WRITE_BIT d1 o q w = some d4 ∧ EC_WRITE_BIT d3 o p v = some d4) := by
  have hx : data[o]? = some (data.get ⟨o, ho⟩) := by simp
  generalize data.get ⟨o, ho⟩ = x at hx
  have hp32 : p < 32 := by omega
  have hq32 : q < 32 := by omega
  refine ⟨_, _, _, EC_WRITE_BIT_eq data o p x v hx, EC_WRITE_BIT_eq data o p x w hx,
    EC_WRITE_BIT_eq data o q x w hx, ?_, ?_, ?_⟩
  · rw [EC_WRITE_BIT_set data o p _ v ho]
    congr 2
    apply Nat.eq_of_testBit_eq
    intro i
    rw [testBit_written _ p i v hp32, testBit_written x p i v hp32]
    by_cases hv : v = 0 <;> by_cases hi : i < 8 <;> by_cases hpi : p = i <;> simp [hv, hi, hpi]
  · rw [EC_WRITE_BIT_set data o p _ w ho]
    congr 2
    apply Nat.eq_of_testBit_eq
    intro i
    rw [testBit_written _ p i w hp32, testBit_written x p i v hp32, testBit_written x p i w hp32]
    by_cases hv : v = 0 <;> by_cases hw : w = 0 <;> by_cases hi : i < 8 <;>
      by_cases hpi : p = i <;> simp [hv, hw, hi, hpi]
  · intro hpq
    refine ⟨_, EC_WRITE_BIT_set data o q _ w ho, ?_⟩
    rw [EC_WRITE_BIT_set data o p _ v ho]
    congr 2
    apply Nat.eq_of_testBit_eq
    intro i
    rw [testBit_written _ p i v hp32, testBit_written x q i w hq32,
      testBit_written _ q i w hq32, testBit_written x p i v hp32]
    by_cases hv : v = 0 <;> by_cases hw : w = 0 <;> by_cases hi : i < 8 <;>
      by_cases hpi : p = i <;> by_cases hqi : q = i <;> simp [hv, hw, hi, hpi, hqi] <;> omega

theorem c16_write_bit_algebra_witness :
    (0 < [165].length ∧ 1 ≤ 7 ∧ 6 ≤ 7) ∧
    ∃ d1 d2 d3, EC_WRITE_BIT [165] 0 1 1 = some d1
      ∧ EC_WRITE_BIT [165] 0 1 0 = some d2
      ∧ EC_WRITE_BIT [165] 0 6 0 = some d3
      ∧ EC_WRITE_BIT d1 0 1 1 = some d1
      ∧ EC_WRITE_BIT d1 0 1 0 = some d2
      ∧ (1 ≠ 6 → ∃ d4, EC_WRITE_BIT d1 0 6 0 = some d4 ∧ EC_WRITE_BIT d3 0 1 1 = some d4) :=
  ⟨by decide, c16_write_bit_algebra [165] 0 1 6 1 0 (by decide) (by decide) (by decide)⟩

/-- C17: for every byte `x` of a buffer, every position `p` from 8 to 30 and
every `val`, `EC_WRITE_BIT(data, p, val)` succeeds and leaves the whole buffer
as it was, and `EC_READ_BIT(data, p)` returns 0. -/
theorem c17_bit_position_out_of_byte (data : Buffer) (o p x : Nat) (val : Int)
    (hx : data[o]? = some x) (hbyte : x < 256) (hp8 : 8 ≤ p) (hp30 : p ≤ 30) :
    EC_WRITE_BIT data o p val = some data ∧ EC_READ_BIT data o p = some 0 := by
  have hhigh : ∀ i, 8 ≤ i → x.testBit i = false := by
    intro i hi
    apply Nat.testBit_lt_two_pow
    calc x < 2 ^ 8 := by omega
      _ ≤ 2 ^ i := Nat.pow_le_pow_right (by norm_num) hi
  constructor
  · rw [EC_WRITE_BIT_eq data o p x val hx]
    have e : (if val ≠ 0 then (x ||| int_one_shl p) % 256
        else (x &&& int_not (int_one_shl p)) % 256) = x := by
      apply Nat.eq_of_testBit_eq
      intro i
      rw [testBit_written x p i val (by omega)]
      by_cases hi : i < 8
      · have hpi : ¬ p = i := by omega
        by_cases hv : val = 0 <;> simp [hv, hi, hpi]
      · simp [hi, hhigh i (by omega)]
    rw [e, set_same data o x hx]
  · simp only [EC_READ_BIT, load8, hx, Option.map_some', read_bit_eq, hhigh p hp8]
    rfl

theorem c17_bit_position_out_of_byte_witness :
    (([7, 255, 7] : Buffer)[1]? = some 255 ∧ 255 < 256 ∧ 8 ≤ 8 ∧ 8 ≤ 30) ∧
    (EC_WRITE_BIT [7, 255, 7] 1 8 1 = some [7, 255, 7] ∧ EC_READ_BIT [7, 255, 7] 1 8 = some 0) :=
  ⟨by decide, c17_bit_position_out_of_byte [7, 255, 7] 1 8 255 1 (by decide) (by decide)
    (by decide) (by decide)⟩

/-- Reading bit 7 of a byte tells whether the byte is 128 or more. -/
theorem EC_READ_BIT_seven (data : Buffer) (o x : Nat) (hx : data[o]? = some x)
    (hbyte : x < 256) : (EC_READ_BIT data o 7 = some 1 ↔ 128 ≤ x) := by
  simp only [EC_READ_BIT, load8, hx, Option.map_some', Option.some.injEq, Nat.and_one_is_mod,
    Nat.shiftRight_eq_div_pow]
  omega

/-- C18: on either host and for each width `w` of 8, 16 and 32 bits, the signed
and the unsigned read of a field both succeed, the signed result is the
unsigned one when that is below `2^(w-1)` and the unsigned one minus `2^w`
otherwise, and the signed result is negative exactly when bit 7 of the last
byte of the field is set. -/
theorem c18_signed_unsigned_views (h : ByteOrder)
    (d8 : Buffer) (o8 a0 : Nat) (d16 : Buffer) (o16 b0 b1 : Nat)
    (d32 : Buffer) (o32 c0 c1 c2 c3 : Nat)
    (f0 : d8[o8]? = some a0) (ha0 : a0 < 256)
    (g0 : d16[o16]? = some b0) (g1 : d16[o16 + 1]? = some b1)
    (hb0 : b0 < 256) (hb1 : b1 < 256)
    (k0 : d32[o32]? = some c0) (k1 : d32[o32 + 1]? = some c1)
    (k2 : d32[o32 + 2]? = some c2) (k3 : d32[o32 + 3]? = some c3)
    (hc0 : c0 < 256) (hc1 : c1 < 256) (hc2 : c2 < 256) (hc3 : c3 < 256) :
    (∃ u s, EC_READ_U8 d8 o8 = some u ∧ EC_READ_S8 d8 o8 = some s
      ∧ s = (if u < 2 ^ 7 then (u : Int) else (u : Int) - 2 ^ 8)
      ∧ (s < 0 ↔ EC_READ_BIT d8 o8 7 = some 1))
    ∧ (∃ u s, EC_READ_U16 h d16 o16 = some u ∧ EC_READ_S16 h d16 o16 = some s
      ∧ s = (if u < 2 ^ 15 then (u : Int) else (u : Int) - 2 ^ 16)
      ∧ (s < 0 ↔ EC_READ_BIT d16 (o16 + 1) 7 = some 1))
    ∧ (∃ u s, EC_READ_U32 h d32 o32 = some u ∧ EC_READ_S32 h d32 o32 = some s
      ∧ s = (if u < 2 ^ 31 then (u : Int) else (u : Int) - 2 ^ 32)
      ∧ (s < 0 ↔ EC_READ_BIT d32 (o32 + 3) 7 = some 1)) := by
  refine ⟨⟨cast_uint8 (a0 : Int), cast_int8 a0, ?_, ?_, ?_, ?_⟩,
    ⟨cast_uint16 ((b0 + 256 * b1 : Nat) : Int), cast_int16 (b0 + 256 * b1), ?_, ?_, ?_, ?_⟩,
    ⟨cast_uint32 ((c0 + 256 * c1 + 65536 * c2 + 16777216 * c3 : Nat) : Int),
      cast_int32 (c0 + 256 * c1 + 65536 * c2 + 16777216 * c3), ?_, ?_, ?_, ?_⟩⟩
  · simp only [EC_READ_U8, load8, f0, Option.map_some']
  · simp only [EC_READ_S8, load8, f0, Option.map_some']
  · unfold cast_uint8 cast_int8
    split <;> split <;> omega
  · rw [EC_READ_BIT_seven d8 o8 a0 f0 ha0]
    unfold cast_int8
    split <;> omega
  · rw [EC_READ_U16, le16_to_cpup_bytes h d16 o16 b0 b1 g0 g1 hb0 hb1]
    simp only [Option.map_some']
  · rw [EC_READ_S16, le16_to_cpup_bytes h d16 o16 b0 b1 g0 g1 hb0 hb1]
    simp only [Option.map_some']
  · unfold cast_uint16 cast_int16
    split <;> split <;> omega
  · rw [EC_READ_BIT_seven d16 (o16 + 1) b1 g1 hb1]
    unfold cast_int16
    split <;> omega
  · rw [EC_READ_U32, le32_to_cpup_bytes h d32 o32 c0 c1 c2 c3 k0 k1 k2 k3 hc0 hc1 hc2 hc3]
    simp only [Option.map_some']
  · rw [EC_READ_S32, le32_to_cpup_bytes h d32 o32 c0 c1 c2 c3 k0 k1 k2 k3 hc0 hc1 hc2 hc3]
    simp only [Option.map_some']
  · unfold cast_uint32 cast_int32
    split <;> split <;> omega
  · rw [EC_READ_BIT_seven d32 (o32 + 3) c3 k3 hc3]
    unfold cast_int32
    split <;> omega

theorem c18_signed_unsigned_views_witness :
    (∃ u s, EC_READ_U8 [200] 0 = some u ∧ EC_READ_S8 [200] 0 = some s
      ∧ s = (if u < 2 ^ 7 then (u : Int) else (u : Int) - 2 ^ 8)
      ∧ (s < 0 ↔ EC_READ_BIT [200] 0 7 = some 1))
    ∧ (∃ u s, EC_READ_U16 .big [254, 255] 0 = some u ∧ EC_READ_S16 .big [254, 255] 0 = some s
      ∧ s = (if u < 2 ^ 15 then (u : Int) else (u : Int) - 2 ^ 16)
      ∧ (s < 0 ↔ EC_READ_BIT [254, 255] (0 + 1) 7 = some 1))
    ∧ (∃ u s, EC_READ_U32 .big [0, 1, 2, 3, 127] 1 = some u
      ∧ EC_READ_S32 .big [0, 1, 2, 3, 127] 1 = some s
      ∧ s = (if u < 2 ^ 31 then (u : Int) else (u : Int) - 2 ^ 32)
      ∧ (s < 0 ↔ EC_READ_BIT [0, 1, 2, 3, 127] (1 + 3) 7 = some 1)) :=
  c18_signed_unsigned_views .big [200] 0 200 [254, 255] 0 254 255 [0, 1, 2, 3, 127] 1 1 2 3 127
    (by decide) (by decide) (by decide) (by decide) (by decide) (by decide) (by decide)
    (by decide) (by decide) (by decide) (by decide) (by decide) (by decide) (by decide)

/-! ## Evaluations of the model on concrete buffers -/

theorem EC_WRITE_U16_big_eval :
    EC_WRITE_U16 .big [7, 7, 7] 0 4660 = some [52, 18, 7] := by decide

theorem EC_WRITE_U16_little_eval :
    EC_WRITE_U16 .little [7, 7, 7] 0 4660 = some [52, 18, 7] := by decide

theorem EC_READ_U32_big_eval :
    EC_READ_U32 .big [120, 86, 52, 18] 0 = some 305419896 := by decide

theorem EC_READ_S16_big_eval :
    EC_READ_S16 .big [7, 254, 255] 1 = some (-2) := by decide

theorem EC_WRITE_BIT_set_eval : EC_WRITE_BIT [165] 0 3 2 = some [173] := by decide

theorem EC_WRITE_BIT_clear_eval : EC_WRITE_BIT [165] 0 2 0 = some [161] := by decide

theorem get_slave_by_pos_mismatch_eval :
    ecrt_master_get_slave_by_pos
      (ec_master_t.mk [ec_slave_t.mk 0 2 5, ec_slave_t.mk 1 2 7]) 1 2 5
      = Except.error EcError.AddressResolutionFailure := by rfl

theorem get_slave_by_pos_match_eval :
    ecrt_master_get_slave_by_pos
      (ec_master_t.mk [ec_slave_t.mk 0 2 5, ec_slave_t.mk 1 2 7]) 1 2 7
      = Except.ok (ec_slave_t.mk 1 2 7) := by rfl

end Ecrt
